import Mathlib

/-!
Verification of the objecty library (src/index.js): a shallow embedding of its
recursive object-graph algorithms (changes, merge, mergeSafe, mergeArrays,
clone, cloneClass, getPropDesc) over a model of JavaScript values, together
with theorems settling the frozen claims about the specification.

Modelling conventions:
* JavaScript values are the inductive type `JVal`: the primitives undefined,
  null, booleans, integers (JS numbers restricted to integers; NaN, floats,
  and signed zero are not modelled), strings, plus functions, arrays and
  plain objects.  Arrays and objects carry an identity tag `id : Nat`
  modelling JavaScript reference identity: two object/array values are "the
  same object" exactly when their tags coincide (well-formed inputs give
  distinct subtrees distinct tags).  Functions are opaque and carry only an
  identity tag.
* Objects are ordered association lists of slots (`JSlots`), matching
  insertion-order `for..in` enumeration; JavaScript objects always have
  distinct keys, which theorems assume where needed (`wfKeysB`).
  Prototype chains of plain data objects are not modelled (plain objects
  inherit only from Object.prototype, which contributes no enumerable
  slots); `cloneClass`'s descriptor lookup gets its own chain model below.
* Mutation is modelled by state passing: an operation that mutates `dest`
  in place returns the new value of `dest`, preserving the identity tag of
  every node it mutates and allocating fresh tags (from a counter threaded
  through) for every object/array it constructs.
* Fallible code returns `Except Err`: `Err.typeError` models the TypeError
  thrown by strict-mode property access/assignment on null/undefined (and
  property creation on primitives); `Err.unmodeled` marks paths the model
  deliberately does not give semantics to (invoking a user-supplied custom
  `clone` capability, assigning to an array's `length` or non-index key,
  creating own properties on function objects).  Theorems about claims
  exclude these paths via their stated hypotheses.
* Loose equality `==` is modelled for primitive/primitive comparisons
  (numeric string coercion included), and as identity-tag equality between
  two functions, two arrays or two objects.  ToPrimitive coercion of an
  object/array operand compared against a primitive is not modelled (such a
  comparison yields `false`); no claim exercises that corner.
* `for..in` over a primitive string (which JavaScript boxes and enumerates
  index keys of) is not modelled: enumeration of non-object non-array
  values yields nothing.
-/

namespace Objecty

/-- Errors of the model: a strict-mode TypeError, or a path the model leaves
without semantics (see module comment). -/
inductive Err : Type where
  | typeError : Err
  | unmodeled : Err
deriving DecidableEq

mutual

/-- A JavaScript value.  `num` restricts JS numbers to integers; `func`,
`arr` and `obj` carry an identity tag modelling reference identity. -/
inductive JVal : Type where
  | undef : JVal
  | null : JVal
  | bool (b : Bool) : JVal
  | num (n : Int) : JVal
  | str (s : String) : JVal
  | func (id : Nat) : JVal
  | arr (id : Nat) (elems : JList) : JVal
  | obj (id : Nat) (slots : JSlots) : JVal

/-- A list of JavaScript values (the elements of an array). -/
inductive JList : Type where
  | nil : JList
  | cons (v : JVal) (tl : JList) : JList

/-- The slots of a JavaScript object: an ordered association list of
(key, value) pairs, in insertion order. -/
inductive JSlots : Type where
  | nil : JSlots
  | cons (k : String) (v : JVal) (tl : JSlots) : JSlots

end

deriving instance DecidableEq for JVal, JList, JSlots

namespace JList

/-- Length of an element list. -/
def length : JList → Nat
  | .nil => 0
  | .cons _ tl => tl.length + 1

/-- Append two element lists. -/
def append : JList → JList → JList
  | .nil, bs => bs
  | .cons a tl, bs => .cons a (tl.append bs)

/-- Push a value at the end (Array.prototype.push). -/
def push (l : JList) (v : JVal) : JList :=
  l.append (.cons v .nil)

/-- Element at an index, if within bounds. -/
def get? : JList → Nat → Option JVal
  | .nil, _ => none
  | .cons v _, 0 => some v
  | .cons _ tl, n + 1 => tl.get? n

/-- Write an element at an index, padding with `undef` beyond the current
length (a JS assignment past the end creates holes, which read back as
undefined). -/
def setIdx : JList → Nat → JVal → JList
  | .nil, 0, x => .cons x .nil
  | .nil, n + 1, x => .cons .undef (setIdx .nil n x)
  | .cons _ tl, 0, x => .cons x tl
  | .cons v tl, n + 1, x => .cons v (tl.setIdx n x)

end JList

namespace JSlots

/-- First value stored under a key, if any. -/
def lookup : JSlots → String → Option JVal
  | .nil, _ => none
  | .cons k v tl, key => if k = key then some v else tl.lookup key

/-- Write a key: replace the first occurrence, else append at the end
(JS assignment keeps insertion order for existing keys and appends new
ones). -/
def set : JSlots → String → JVal → JSlots
  | .nil, key, x => .cons key x .nil
  | .cons k v tl, key, x =>
      if k = key then .cons k x tl else .cons k v (tl.set key x)

/-- The keys, in order. -/
def keys : JSlots → List String
  | .nil => []
  | .cons k _ tl => k :: tl.keys

/-- Append two slot lists. -/
def append : JSlots → JSlots → JSlots
  | .nil, bs => bs
  | .cons k v tl, bs => .cons k v (tl.append bs)

end JSlots

/-- Truthiness: the falsy JS values are undefined, null, false, 0 and "". -/
def falsyB : JVal → Bool
  | .undef => true
  | .null => true
  | .bool b => !b
  | .num n => n = 0
  | .str s => s = ""
  | _ => false

/-- Whether `typeof v === 'object'` holds: true for null, arrays and
objects. -/
def isObjectTypeB : JVal → Bool
  | .null => true
  | .arr _ _ => true
  | .obj _ _ => true
  | _ => false

/-- Array.isArray. -/
def isArrB : JVal → Bool
  | .arr _ _ => true
  | _ => false

/-- Whether `typeof v === 'function'` holds. -/
def isFuncB : JVal → Bool
  | .func _ => true
  | _ => false

/-- A primitive in the broad sense used by merge's first test: neither
object-typed nor a function, i.e. directly assignable data. -/
def isPrimB (v : JVal) : Bool :=
  !isObjectTypeB v && !isFuncB v

/-- A non-function scalar value: undefined, null, a boolean, a number or a
string. -/
def scalarValB : JVal → Bool
  | .undef => true
  | .null => true
  | .bool _ => true
  | .num _ => true
  | .str _ => true
  | _ => false

/-- JS ToNumber on a string, restricted to optionally signed decimal
integer literals; the empty string converts to 0 (surrounding whitespace,
floats, exponents and hex literals are not modelled). -/
def strToInt (s : String) : Option Int :=
  match s.toList with
  | [] => some 0
  | '-' :: ds => if ds ≠ [] ∧ ds.all Char.isDigit then
      some (-(ds.foldl (fun a c => a * 10 + (c.toNat - 48)) 0 : Nat)) else none
  | '+' :: ds => if ds ≠ [] ∧ ds.all Char.isDigit then
      some ((ds.foldl (fun a c => a * 10 + (c.toNat - 48)) 0 : Nat)) else none
  | ds => if ds.all Char.isDigit then
      some ((ds.foldl (fun a c => a * 10 + (c.toNat - 48)) 0 : Nat)) else none

/-- A canonical array-index string: nonempty digits without a leading zero
(JS treats only canonical numeric strings as array indices). -/
def strToNatIdx (s : String) : Option Nat :=
  match s.toList with
  | [] => none
  | ds => if ds.all Char.isDigit ∧ (ds = ['0'] ∨ ds.head? ≠ some '0') then
      some (ds.foldl (fun a c => a * 10 + (c.toNat - 48)) 0) else none

/-- The numeric coercion of a boolean. -/
def boolNum (b : Bool) : Int := if b then 1 else 0

/-- JS loose equality `==`.  Primitive pairs follow the coercion rules
(booleans convert to numbers, a number meets a string through ToNumber);
two functions, two arrays or two objects compare by identity tag; an
object/array/function operand never compares loosely equal to a primitive
(ToPrimitive coercion is not modelled, see module comment). -/
def looseEqB : JVal → JVal → Bool
  | .undef, .undef => true
  | .undef, .null => true
  | .null, .undef => true
  | .null, .null => true
  | .bool a, .bool b => a = b
  | .bool a, .num m => boolNum a = m
  | .num n, .bool b => n = boolNum b
  | .bool a, .str s => strToInt s = some (boolNum a)
  | .str s, .bool b => strToInt s = some (boolNum b)
  | .num n, .num m => n = m
  | .num n, .str s => strToInt s = some n
  | .str s, .num m => strToInt s = some m
  | .str s, .str t => s = t
  | .func i, .func j => i = j
  | .arr i _, .arr j _ => i = j
  | .obj i _, .obj j _ => i = j
  | _, _ => false

/-- JS strict equality / SameValueZero (as used by Array.prototype.includes):
same shape and equal payload; functions, arrays and objects compare by
identity tag. -/
def strictEqB : JVal → JVal → Bool
  | .undef, .undef => true
  | .null, .null => true
  | .bool a, .bool b => a = b
  | .num n, .num m => n = m
  | .str s, .str t => s = t
  | .func i, .func j => i = j
  | .arr i _, .arr j _ => i = j
  | .obj i _, .obj j _ => i = j
  | _, _ => false

/-- Array.prototype.includes, via SameValueZero. -/
def includesJ : JList → JVal → Bool
  | .nil, _ => false
  | .cons a tl, v => strictEqB a v || includesJ tl v

/-- Reading `target[key]` (strict mode): throws a TypeError on null and
undefined; objects look the key up in their slots (absent gives undefined);
arrays answer `length` and canonical in-range indices; strings answer
`length` and index keys; other primitives have no modelled own properties
and yield undefined. -/
def getProp : JVal → String → Except Err JVal
  | .undef, _ => .error .typeError
  | .null, _ => .error .typeError
  | .obj _ slots, key => .ok ((slots.lookup key).getD .undef)
  | .arr _ elems, key =>
      if key = "length" then .ok (.num elems.length)
      else match strToNatIdx key with
        | some i => .ok ((elems.get? i).getD .undef)
        | none => .ok .undef
  | .str s, key =>
      if key = "length" then .ok (.num s.length)
      else match strToNatIdx key with
        | some i => .ok (((s.toList.get? i).map
            (fun c => JVal.str (String.mk [c]))).getD .undef)
        | none => .ok .undef
  | _, _ => .ok (.undef)

/-- Writing `target[key] = x` (strict mode): throws a TypeError on null,
undefined and value primitives; objects update the slot (preserving the
identity tag); arrays update canonical indices (assigning `length` or a
non-index key is left without model semantics, as is creating own
properties on a function object). -/
def setProp : JVal → String → JVal → Except Err JVal
  | .obj id slots, key, x => .ok (.obj id (slots.set key x))
  | .arr id elems, key, x =>
      if key = "length" then .error .unmodeled
      else match strToNatIdx key with
        | some i => .ok (.arr id (elems.setIdx i x))
        | none => .error .unmodeled
  | .func _, _, _ => .error .unmodeled
  | _, _, _ => .error .typeError

/-- Reading `target[key]` where `key` is the canonical decimal string of
the index `i` (the keys `for..in` yields for an array source): unfolds
`getProp target (Nat.repr i)` — for an array target the canonical index
string addresses exactly element `i`. -/
def getIdxProp : JVal → Nat → Except Err JVal
  | .undef, _ => .error .typeError
  | .null, _ => .error .typeError
  | .obj _ slots, i => .ok ((slots.lookup (Nat.repr i)).getD .undef)
  | .arr _ elems, i => .ok ((elems.get? i).getD .undef)
  | .str s, i => .ok (((s.toList.get? i).map
      (fun c => JVal.str (String.mk [c]))).getD .undef)
  | _, _ => .ok (.undef)

/-- Writing `target[key] = x` where `key` is the canonical decimal string
of the index `i`: unfolds `setProp target (Nat.repr i) x`. -/
def setIdxProp : JVal → Nat → JVal → Except Err JVal
  | .obj id slots, i, x => .ok (.obj id (slots.set (Nat.repr i) x))
  | .arr id elems, i, x => .ok (.arr id (elems.setIdx i x))
  | .func _, _, _ => .error .unmodeled
  | _, _, _ => .error .typeError

/-- Whether a value is a non-null object-typed value, i.e. satisfies
`typeof v === 'object' && v !== null`: an array or an object. -/
def isObjValB : JVal → Bool
  | .arr _ _ => true
  | .obj _ _ => true
  | _ => false

/-- Accumulating one changed slot into the result being built by `changes`:
the result object `res = {}` is allocated (with a fresh identity tag) at the
first recorded difference, later differences update it in place. -/
def record (res : Option (Nat × JSlots)) (n : Nat) (p : String) (v : JVal) :
    Option (Nat × JSlots) × Nat :=
  match res with
  | none => (some (n, JSlots.cons p v .nil), n + 1)
  | some (i, s) => (some (i, s.set p v), n)

mutual

/-- changes (src/index.js lines 12-46): recursively collect the slots of
`c` that differ from `o`, returning JS null when nothing differs.  A slot
is skipped when it compares loosely equal, when both sides are falsy, or
when both sides are non-null object-typed values whose recursive diff is
null; a changed slot is recorded with `c`'s value (shared, not cloned).
The counter `n` supplies identity tags for the result objects allocated. -/
def changes (c o : JVal) (n : Nat) : Except Err (JVal × Nat) :=
  match c with
  | .obj _ slots => do
      let (res, n') ← changesSlots slots o n none
      match res with
      | none => .ok (.null, n')
      | some (i, s) => .ok (.obj i s, n')
  | .arr _ elems => do
      let (res, n') ← changesElems 0 elems o n none
      match res with
      | none => .ok (.null, n')
      | some (i, s) => .ok (.obj i s, n')
  | _ => .ok (.null, n)

/-- The `for..in` loop body of `changes` over an object's slots. -/
def changesSlots (slots : JSlots) (o : JVal) (n : Nat)
    (res : Option (Nat × JSlots)) : Except Err (Option (Nat × JSlots) × Nat) :=
  match slots with
  | .nil => .ok (res, n)
  | .cons p sub tl => do
      let orig ← getProp o p
      if looseEqB sub orig then changesSlots tl o n res
      else if falsyB sub then
        if falsyB orig then changesSlots tl o n res
        else
          let r := record res n p sub
          changesSlots tl o r.2 r.1
      else if isObjValB sub then
        if isObjValB orig then do
          let (d, n') ← changes sub orig n
          match d with
          | .null => changesSlots tl o n' res
          | dd =>
              let r := record res n' p dd
              changesSlots tl o r.2 r.1
        else
          let r := record res n p sub
          changesSlots tl o r.2 r.1
      else
        let r := record res n p sub
        changesSlots tl o r.2 r.1

/-- The `for..in` loop body of `changes` over an array's index keys. -/
def changesElems (i : Nat) (elems : JList) (o : JVal) (n : Nat)
    (res : Option (Nat × JSlots)) : Except Err (Option (Nat × JSlots) × Nat) :=
  match elems with
  | .nil => .ok (res, n)
  | .cons sub tl => do
      let orig ← getIdxProp o i
      if looseEqB sub orig then changesElems (i + 1) tl o n res
      else if falsyB sub then
        if falsyB orig then changesElems (i + 1) tl o n res
        else
          let r := record res n (Nat.repr i) sub
          changesElems (i + 1) tl o r.2 r.1
      else if isObjValB sub then
        if isObjValB orig then do
          let (d, n') ← changes sub orig n
          match d with
          | .null => changesElems (i + 1) tl o n' res
          | dd =>
              let r := record res n' (Nat.repr i) dd
              changesElems (i + 1) tl o r.2 r.1
        else
          let r := record res n (Nat.repr i) sub
          changesElems (i + 1) tl o r.2 r.1
      else
        let r := record res n (Nat.repr i) sub
        changesElems (i + 1) tl o r.2 r.1

end

/-- The push loop of mergeArrays: `a` accumulates, elements of `a2` already
present in `a1` (by SameValueZero) are skipped. -/
def mergeArraysGo (a1 : JList) (a : JList) : JList → JList
  | .nil => a
  | .cons v tl => mergeArraysGo a1 (if includesJ a1 v then a else a.push v) tl

/-- mergeArrays (src/index.js lines 121-135): start from a copy of `a1`
and push every element of `a2` not already included in `a1`. -/
def mergeArraysL (a1 a2 : JList) : JList :=
  mergeArraysGo a1 a1 a2

mutual

/-- merge (src/index.js lines 54-76): recursively merge `src` into `dest`
in place.  Values that are neither object-typed nor functions are assigned
unconditionally; otherwise, an array destination slot is array-merged or
pushed into, an object-typed (including null) destination slot is merged
into recursively, and anything else is left untouched.  Returns the updated
`dest`; `n` supplies identity tags for arrays built by mergeArrays. -/
def merge (dest src : JVal) (n : Nat) : Except Err (JVal × Nat) :=
  match src with
  | .obj _ slots => mergeSlots dest slots n
  | .arr _ elems => mergeElems dest 0 elems n
  | _ => .ok (dest, n)

/-- The `for..in` loop body of `merge` over the source object's slots. -/
def mergeSlots (dest : JVal) (slots : JSlots) (n : Nat) :
    Except Err (JVal × Nat) :=
  match slots with
  | .nil => .ok (dest, n)
  | .cons p srcSub tl =>
      if !isObjectTypeB srcSub && !isFuncB srcSub then do
        let d ← setProp dest p srcSub
        mergeSlots d tl n
      else do
        let destSub ← getProp dest p
        match destSub with
        | .arr aid elems =>
            match srcSub with
            | .arr _ selems => do
                let d ← setProp dest p (.arr n (mergeArraysL elems selems))
                mergeSlots d tl (n + 1)
            | _ =>
                if includesJ elems srcSub then mergeSlots dest tl n
                else do
                  let d ← setProp dest p (.arr aid (elems.push srcSub))
                  mergeSlots d tl n
        | _ =>
            if isObjectTypeB destSub then do
              let (m, n') ← merge destSub srcSub n
              let d ← setProp dest p m
              mergeSlots d tl n'
            else mergeSlots dest tl n

/-- The `for..in` loop body of `merge` over a source array's index keys. -/
def mergeElems (dest : JVal) (i : Nat) (elems : JList) (n : Nat) :
    Except Err (JVal × Nat) :=
  match elems with
  | .nil => .ok (dest, n)
  | .cons srcSub tl =>
      if !isObjectTypeB srcSub && !isFuncB srcSub then do
        let d ← setIdxProp dest i srcSub
        mergeElems d (i + 1) tl n
      else do
        let destSub ← getIdxProp dest i
        match destSub with
        | .arr aid es =>
            match srcSub with
            | .arr _ selems => do
                let d ← setIdxProp dest i (.arr n (mergeArraysL es selems))
                mergeElems d (i + 1) tl (n + 1)
            | _ =>
                if includesJ es srcSub then mergeElems dest (i + 1) tl n
                else do
                  let d ← setIdxProp dest i (.arr aid (es.push srcSub))
                  mergeElems d (i + 1) tl n
        | _ =>
            if isObjectTypeB destSub then do
              let (m, n') ← merge destSub srcSub n
              let d ← setIdxProp dest i m
              mergeElems d (i + 1) tl n'
            else mergeElems dest (i + 1) tl n

end

mutual

/-- clone (src/index.js lines 181-204): deep-clone `src` into `dest`
(default a fresh empty object), copying null/undefined and scalars as-is,
functions by reference, arrays into fresh arrays, and objects either
through their custom clone capability (left without model semantics) or
into fresh objects.  Returns the updated `dest`; fresh objects and arrays
take identity tags from the counter `n`. -/
def clone (src dest : JVal) (n : Nat) : Except Err (JVal × Nat) :=
  match src with
  | .obj _ slots => cloneSlots slots dest n
  | .arr _ elems => cloneElems 0 elems dest n
  | _ => .ok (dest, n)

/-- The `for..in` loop body of `clone` over an object's slots. -/
def cloneSlots (slots : JSlots) (dest : JVal) (n : Nat) :
    Except Err (JVal × Nat) :=
  match slots with
  | .nil => .ok (dest, n)
  | .cons p o tl =>
      match o with
      | .null => do
          let d ← setProp dest p o
          cloneSlots tl d n
      | .undef => do
          let d ← setProp dest p o
          cloneSlots tl d n
      | .arr _ _ => do
          let (s, n') ← clone o (.arr n .nil) (n + 1)
          let d ← setProp dest p s
          cloneSlots tl d n'
      | .obj _ oslots =>
          match oslots.lookup "clone" with
          | some (.func _) => .error .unmodeled
          | _ => do
              let (s, n') ← clone o (.obj n .nil) (n + 1)
              let d ← setProp dest p s
              cloneSlots tl d n'
      | _ => do
          let d ← setProp dest p o
          cloneSlots tl d n

/-- The `for..in` loop body of `clone` over an array's index keys. -/
def cloneElems (i : Nat) (elems : JList) (dest : JVal) (n : Nat) :
    Except Err (JVal × Nat) :=
  match elems with
  | .nil => .ok (dest, n)
  | .cons o tl =>
      match o with
      | .null => do
          let d ← setIdxProp dest i o
          cloneElems (i + 1) tl d n
      | .undef => do
          let d ← setIdxProp dest i o
          cloneElems (i + 1) tl d n
      | .arr _ _ => do
          let (s, n') ← clone o (.arr n .nil) (n + 1)
          let d ← setIdxProp dest i s
          cloneElems (i + 1) tl d n'
      | .obj _ oslots =>
          match oslots.lookup "clone" with
          | some (.func _) => .error .unmodeled
          | _ => do
              let (s, n') ← clone o (.obj n .nil) (n + 1)
              let d ← setIdxProp dest i s
              cloneElems (i + 1) tl d n'
      | _ => do
          let d ← setIdxProp dest i o
          cloneElems (i + 1) tl d n

end

mutual

/-- mergeSafe (src/index.js lines 86-111): recursively merge `src` into
`dest` in place without overwriting existing values: an undefined
destination slot is filled (deep-cloning object-typed source values), a
null destination slot is skipped entirely, two non-array object slots are
merged recursively, and every other combination is left untouched. -/
def mergeSafe (dest src : JVal) (n : Nat) : Except Err (JVal × Nat) :=
  match src with
  | .obj _ slots => mergeSafeSlots dest slots n
  | .arr _ elems => mergeSafeElems dest 0 elems n
  | _ => .ok (dest, n)

/-- The `for..in` loop body of `mergeSafe` over the source object's
slots. -/
def mergeSafeSlots (dest : JVal) (slots : JSlots) (n : Nat) :
    Except Err (JVal × Nat) :=
  match slots with
  | .nil => .ok (dest, n)
  | .cons p srcSub tl => do
      let destSub ← getProp dest p
      match destSub with
      | .undef =>
          if (match srcSub with | .null => false | _ => true)
              && isObjectTypeB srcSub then do
            let fresh := if isArrB srcSub then JVal.arr n .nil
                         else JVal.obj n .nil
            let (c, n') ← clone srcSub fresh (n + 1)
            let d ← setProp dest p c
            mergeSafeSlots d tl n'
          else do
            let d ← setProp dest p srcSub
            mergeSafeSlots d tl n
      | .null => mergeSafeSlots dest tl n
      | _ =>
          if !falsyB srcSub && isObjectTypeB destSub && isObjectTypeB srcSub
          then
            if !isArrB destSub && !isArrB srcSub then do
              let (m, n') ← mergeSafe destSub srcSub n
              let d ← setProp dest p m
              mergeSafeSlots d tl n'
            else mergeSafeSlots dest tl n
          else mergeSafeSlots dest tl n

/-- The `for..in` loop body of `mergeSafe` over a source array's index
keys. -/
def mergeSafeElems (dest : JVal) (i : Nat) (elems : JList) (n : Nat) :
    Except Err (JVal × Nat) :=
  match elems with
  | .nil => .ok (dest, n)
  | .cons srcSub tl => do
      let destSub ← getIdxProp dest i
      match destSub with
      | .undef =>
          if (match srcSub with | .null => false | _ => true)
              && isObjectTypeB srcSub then do
            let fresh := if isArrB srcSub then JVal.arr n .nil
                         else JVal.obj n .nil
            let (c, n') ← clone srcSub fresh (n + 1)
            let d ← setIdxProp dest i c
            mergeSafeElems d (i + 1) tl n'
          else do
            let d ← setIdxProp dest i srcSub
            mergeSafeElems d (i + 1) tl n
      | .null => mergeSafeElems dest (i + 1) tl n
      | _ =>
          if !falsyB srcSub && isObjectTypeB destSub && isObjectTypeB srcSub
          then
            if !isArrB destSub && !isArrB srcSub then do
              let (m, n') ← mergeSafe destSub srcSub n
              let d ← setIdxProp dest i m
              mergeSafeElems d (i + 1) tl n'
            else mergeSafeElems dest (i + 1) tl n
          else mergeSafeElems dest (i + 1) tl n

end

mutual

/-- Deep structural equality of two values, disregarding identity tags of
arrays and objects (functions, being opaque, are equal exactly when they
are the same function). -/
def structEqB : JVal → JVal → Bool
  | .undef, .undef => true
  | .null, .null => true
  | .bool a, .bool b => a = b
  | .num n, .num m => n = m
  | .str s, .str t => s = t
  | .func i, .func j => i = j
  | .arr _ a, .arr _ b => structEqListB a b
  | .obj _ a, .obj _ b => structEqSlotsB a b
  | _, _ => false

/-- Elementwise structural equality of element lists. -/
def structEqListB : JList → JList → Bool
  | .nil, .nil => true
  | .cons a ta, .cons b tb => structEqB a b && structEqListB ta tb
  | _, _ => false

/-- Pairwise structural equality of slot lists (same keys in the same
order, structurally equal values). -/
def structEqSlotsB : JSlots → JSlots → Bool
  | .nil, .nil => true
  | .cons k a ta, .cons k' b tb => k = k' && structEqB a b && structEqSlotsB ta tb
  | _, _ => false

end

mutual

/-- All identity tags of arrays and objects reachable in a value (function
tags are deliberately excluded: claims about aliasing concern aggregates
and sequences, while functions are shared by design). -/
def collectIds : JVal → List Nat
  | .arr i es => i :: collectIdsList es
  | .obj i ss => i :: collectIdsSlots ss
  | _ => []

/-- Identity tags reachable in an element list. -/
def collectIdsList : JList → List Nat
  | .nil => []
  | .cons v tl => collectIds v ++ collectIdsList tl

/-- Identity tags reachable in a slot list. -/
def collectIdsSlots : JSlots → List Nat
  | .nil => []
  | .cons _ v tl => collectIds v ++ collectIdsSlots tl

end

/-- Every array/object identity tag in `v` lies below `n` (so a fresh-tag
counter starting at `n` can never collide with `v`). -/
def idsBelowB (v : JVal) (n : Nat) : Bool :=
  (collectIds v).all (· < n)

/-- No array or object of `a` is the same reference as one of `b`: their
identity-tag sets are disjoint. -/
def idsDisjointB (a b : JVal) : Bool :=
  (collectIds a).all (fun i => !(collectIds b).contains i)

/-- Whether a slot list binds a key at all. -/
def hasKeyB (s : JSlots) (k : String) : Bool :=
  (s.lookup k).isSome

/-- Distinctness of the keys of a slot list. -/
def nodupKeysB : JSlots → Bool
  | .nil => true
  | .cons k _ tl => !hasKeyB tl k && nodupKeysB tl

mutual

/-- Well-formedness: every object reachable in the value has distinct slot
keys (JavaScript objects cannot bind a key twice). -/
def wfKeysB : JVal → Bool
  | .arr _ es => wfKeysListB es
  | .obj _ ss => nodupKeysB ss && wfKeysSlotsB ss
  | _ => true

/-- Well-formedness of every value of an element list. -/
def wfKeysListB : JList → Bool
  | .nil => true
  | .cons v tl => wfKeysB v && wfKeysListB tl

/-- Well-formedness of every value of a slot list. -/
def wfKeysSlotsB : JSlots → Bool
  | .nil => true
  | .cons _ v tl => wfKeysB v && wfKeysSlotsB tl

end

mutual

/-- Whether any object reachable in the value exposes a custom clone
capability, i.e. binds the key "clone" to a function (the case whose
behaviour the model leaves open). -/
def hasCloneCapB : JVal → Bool
  | .arr _ es => hasCloneCapListB es
  | .obj _ ss =>
      (match ss.lookup "clone" with | some (.func _) => true | _ => false)
        || hasCloneCapSlotsB ss
  | _ => false

/-- Custom clone capability anywhere in an element list. -/
def hasCloneCapListB : JList → Bool
  | .nil => false
  | .cons v tl => hasCloneCapB v || hasCloneCapListB tl

/-- Custom clone capability anywhere in a slot list. -/
def hasCloneCapSlotsB : JSlots → Bool
  | .nil => false
  | .cons _ v tl => hasCloneCapB v || hasCloneCapSlotsB tl

end

/-- Elements of `a2` that survive the mergeArrays membership test: those
not included (by SameValueZero) in `a1`, kept in order, duplicates
intact. -/
def keepNewJ (a1 : JList) : JList → JList
  | .nil => .nil
  | .cons v tl =>
      if includesJ a1 v then keepNewJ a1 tl else .cons v (keepNewJ a1 tl)

/-- A property descriptor as surfaced by Object.getOwnPropertyDescriptor:
either a data property carrying its writable flag, or an accessor carrying
its optional getter and setter (identified functions).  JavaScript admits
no descriptor that is both writable and setter-backed. -/
inductive Desc : Type where
  | data (writable : Bool) : Desc
  | accessor (get set : Option Nat) : Desc

/-- Truthiness of `descriptor.writable`: undefined (hence falsy) on an
accessor descriptor. -/
def descWritableB : Desc → Bool
  | .data w => w
  | .accessor _ _ => false

/-- Whether `descriptor.set === undefined` holds: a data descriptor has no
setter field, an accessor may. -/
def descSetUndefB : Desc → Bool
  | .data _ => true
  | .accessor _ s => s.isNone

/-- The skip test of cloneClass (src/index.js line 156):
`def && (!def.writable || def.set === undefined)`, given a found
descriptor. -/
def cloneClassSkipB (d : Desc) : Bool :=
  !descWritableB d || descSetUndefB d

/-- A cloneClass destination with an inheritance chain: its own plain
writable data slots, plus an ordered chain of descriptor levels (most
derived first, stopping before Object.prototype). -/
structure ClassObj : Type where
  own : JSlots
  chain : List (List (String × Desc))

/-- Descriptor search along a chain of levels: the first level binding the
key wins. -/
def findDescInChain : List (List (String × Desc)) → String → Option Desc
  | [], _ => none
  | lvl :: rest, k =>
      match lvl.find? (fun q => q.1 = k) with
      | some q => some q.2
      | none => findDescInChain rest k

/-- getPropDesc (src/index.js lines 509-520) over a `ClassObj`: the
object's own properties (plain writable data slots) are found first, then
the chain is walked until a level binds the key, and the search stops at
Object.prototype with null. -/
def getPropDescC (d : ClassObj) (k : String) : Option Desc :=
  if hasKeyB d.own k then some (.data true) else findDescInChain d.chain k

mutual

/-- cloneClass (src/index.js lines 144-170) applied to a plain (chainless)
value, as its recursion does for sub-objects: the fresh destination starts
empty, so the descriptor lookup finds only the own slots copied so far
(plain writable data, which the skip test nevertheless skips — irrelevant
here because keys are enumerated once).  Custom clone capabilities are
left without model semantics. -/
def cloneClassV (src : JVal) (n : Nat) : Except Err (JVal × Nat) :=
  match src with
  | .arr _ es => cloneClassVElems 0 es (.arr n .nil) (n + 1)
  | .obj _ ss => cloneClassVSlots ss (.obj n .nil) (n + 1)
  | v => .ok (v, n)

/-- The loop of `cloneClassV` over an object's slots. -/
def cloneClassVSlots (slots : JSlots) (dest : JVal) (n : Nat) :
    Except Err (JVal × Nat) :=
  match slots with
  | .nil => .ok (dest, n)
  | .cons p o tl =>
      let dsc : Option Desc := match dest with
        | .obj _ ss => if hasKeyB ss p then some (.data true) else none
        | _ => none
      match dsc with
      | some d =>
          if cloneClassSkipB d then cloneClassVSlots tl dest n
          else do
            let d' ← setProp dest p o
            cloneClassVSlots tl d' n
      | none =>
          match o with
          | .null => do
              let d' ← setProp dest p o
              cloneClassVSlots tl d' n
          | .undef => do
              let d' ← setProp dest p o
              cloneClassVSlots tl d' n
          | .arr _ _ => do
              let (s, n') ← cloneClassV o n
              let d' ← setProp dest p s
              cloneClassVSlots tl d' n'
          | .obj _ oslots =>
              match oslots.lookup "clone" with
              | some (.func _) => .error .unmodeled
              | _ => do
                  let (s, n') ← cloneClassV o n
                  let d' ← setProp dest p s
                  cloneClassVSlots tl d' n'
          | _ => do
              let d' ← setProp dest p o
              cloneClassVSlots tl d' n

/-- The loop of `cloneClassV` over an array's index keys (already-written
indices read back as plain writable data, mirroring getPropDesc on the
array destination). -/
def cloneClassVElems (i : Nat) (elems : JList) (dest : JVal) (n : Nat) :
    Except Err (JVal × Nat) :=
  match elems with
  | .nil => .ok (dest, n)
  | .cons o tl =>
      let dsc : Option Desc := match dest with
        | .arr _ es => if (es.get? i).isSome then some (.data true) else none
        | _ => none
      match dsc with
      | some d =>
          if cloneClassSkipB d then cloneClassVElems (i + 1) tl dest n
          else do
            let d' ← setIdxProp dest i o
            cloneClassVElems (i + 1) tl d' n
      | none =>
          match o with
          | .null => do
              let d' ← setIdxProp dest i o
              cloneClassVElems (i + 1) tl d' n
          | .undef => do
              let d' ← setIdxProp dest i o
              cloneClassVElems (i + 1) tl d' n
          | .arr _ _ => do
              let (s, n') ← cloneClassV o n
              let d' ← setIdxProp dest i s
              cloneClassVElems (i + 1) tl d' n'
          | .obj _ oslots =>
              match oslots.lookup "clone" with
              | some (.func _) => .error .unmodeled
              | _ => do
                  let (s, n') ← cloneClassV o n
                  let d' ← setIdxProp dest i s
                  cloneClassVElems (i + 1) tl d' n'
          | _ => do
              let d' ← setIdxProp dest i o
              cloneClassVElems (i + 1) tl d' n

end

/-- One assignment step of cloneClass against a chain-carrying
destination: compute the value to store (null/undefined and scalars as-is,
object-typed values through the capability check or a recursive plain
cloneClass) and create or update the own data slot.  The setter-bearing
and read-only assignment paths are unreachable, the skip test being
vacuously true on every descriptor — see the C8 theorems. -/
def cloneClassAssignOne (p : String) (o : JVal) (dest : ClassObj) (n : Nat) :
    Except Err (ClassObj × Nat) :=
  match o with
  | .null => .ok ({ dest with own := dest.own.set p o }, n)
  | .undef => .ok ({ dest with own := dest.own.set p o }, n)
  | .arr _ _ => do
      let (s, n') ← cloneClassV o n
      .ok ({ dest with own := dest.own.set p s }, n')
  | .obj _ oslots =>
      match oslots.lookup "clone" with
      | some (.func _) => .error .unmodeled
      | _ => do
          let (s, n') ← cloneClassV o n
          .ok ({ dest with own := dest.own.set p s }, n')
  | _ => .ok ({ dest with own := dest.own.set p o }, n)

/-- The loop of cloneClass over the source object's slots, against a
supplied destination carrying a descriptor chain: the skip test is applied
to the first descriptor found on the destination (own or chain), and
non-skipped slots are assigned by `cloneClassAssignOne`. -/
def cloneClassTopSlots (slots : JSlots) (dest : ClassObj) (n : Nat) :
    Except Err (ClassObj × Nat) :=
  match slots with
  | .nil => .ok (dest, n)
  | .cons p o tl =>
      match getPropDescC dest p with
      | some d =>
          if cloneClassSkipB d then cloneClassTopSlots tl dest n
          else do
            let (d', n') ← cloneClassAssignOne p o dest n
            cloneClassTopSlots tl d' n'
      | none => do
          let (d', n') ← cloneClassAssignOne p o dest n
          cloneClassTopSlots tl d' n'

/-- cloneClass (src/index.js lines 144-170) with an explicitly supplied
destination that carries a descriptor chain (the claim C8 scenario); a
non-object source enumerates nothing. -/
def cloneClassTop (src : JVal) (dest : ClassObj) (n : Nat) :
    Except Err (ClassObj × Nat) :=
  match src with
  | .obj _ ss => cloneClassTopSlots ss dest n
  | _ => .ok (dest, n)

/-- A value of the reference-graph model used for the recursion-depth
analysis of clone on cyclic inputs: a primitive, or a reference to an
object in a heap. -/
inductive HVal : Type where
  | prim : HVal
  | ref (r : Nat) : HVal

/-- A heap of the reference-graph model: object references map to slot
lists (the representation JavaScript actually gives clone, where an object
may contain a reference back to itself). -/
def Heap : Type := List (Nat × List (String × HVal))

/-- Slots of a referenced object. -/
def heapSlots (h : Heap) (r : Nat) : List (String × HVal) :=
  ((h.find? (fun q => q.1 = r)).map (fun q => q.2)).getD []

mutual

/-- The recursion skeleton of clone (src/index.js lines 181-204) over a
reference graph, bounded by an explicit fuel on recursion depth: clone
recurses into every object-typed slot value, and the source contains no
cycle or depth guard whatsoever, so completion within fuel `f` means the
recursion depth never exceeds `f`.  Returns none when the bound is hit. -/
def cloneDepthF (f : Nat) (h : Heap) (v : HVal) : Option Unit :=
  match v with
  | .prim => some ()
  | .ref r =>
      match f with
      | 0 => none
      | f' + 1 => cloneDepthSlotsF f' h (heapSlots h r)
termination_by (f, 0)

/-- The slot loop of `cloneDepthF`. -/
def cloneDepthSlotsF (f : Nat) (h : Heap) (l : List (String × HVal)) :
    Option Unit :=
  match l with
  | [] => some ()
  | (_, v) :: tl =>
      match cloneDepthF f h v with
      | none => none
      | some _ => cloneDepthSlotsF f h tl
termination_by (f, l.length + 1)

end

/-- The simplest cyclic aggregate: an object whose slot "self" refers back
to the object itself (in JS: `let a = \x7b\x7d; a.self = a`). -/
def cyclicHeap : Heap := [(0, [("self", HVal.ref 0)])]

/-- Whether the optional diff accumulator of changes already holds a
key. -/
def hasKeyOptB (res : Option (Nat × JSlots)) (p : String) : Bool :=
  match res with
  | none => false
  | some (_, s) => hasKeyB s p

/-- Whether a diff result (null or an object) omits a key. -/
def resNoKeyB (r : JVal) (p : String) : Bool :=
  match r with
  | .obj _ s => !hasKeyB s p
  | _ => true

mutual

/-- The claim C7 side condition, mirroring the per-slot skip tests of
changes: every slot of the candidate compares loosely equal to the
original's value, or both are falsy, or both are non-null object-typed
values related recursively. -/
def noChangeB (c o : JVal) : Bool :=
  match c with
  | .obj _ slots => noChangeSlotsB slots o
  | .arr _ elems => noChangeElemsB 0 elems o
  | _ => true

/-- `noChangeB` over an object's slots. -/
def noChangeSlotsB (slots : JSlots) (o : JVal) : Bool :=
  match slots with
  | .nil => true
  | .cons p v tl =>
      (match getProp o p with
        | .error _ => false
        | .ok w =>
            looseEqB v w || (falsyB v && falsyB w)
              || (isObjValB v && isObjValB w && noChangeB v w))
        && noChangeSlotsB tl o

/-- `noChangeB` over an array's index keys. -/
def noChangeElemsB (i : Nat) (elems : JList) (o : JVal) : Bool :=
  match elems with
  | .nil => true
  | .cons v tl =>
      (match getIdxProp o i with
        | .error _ => false
        | .ok w =>
            looseEqB v w || (falsyB v && falsyB w)
              || (isObjValB v && isObjValB w && noChangeB v w))
        && noChangeElemsB (i + 1) tl o

end

mutual

/-- The claim C5 frame property, per destination slot value: an
undefined-valued slot may be filled freely; an object-valued slot must
keep the same reference (identity tag) with its own slots preserved
recursively; every other value (null, scalar, function, array) must
survive completely unchanged. -/
def preservedSlotB (v v' : JVal) : Bool :=
  match v, v' with
  | .undef, _ => true
  | .obj i s, .obj i' s' => (i == i') && preservedSlotsB s s'
  | .obj _ _, _ => false
  | v, v' => v == v'

/-- `preservedSlotB` across all slots of the original object: each slot's
pre-call binding constrains the post-call binding under the same key. -/
def preservedSlotsB (s s' : JSlots) : Bool :=
  match s with
  | .nil => true
  | .cons k v tl =>
      (match s'.lookup k with
        | some v' => preservedSlotB v v'
        | none => false)
        && preservedSlotsB tl s'

end

/-- The claim C5 frame property at the top-level destination object. -/
def preservedB (d d' : JVal) : Bool :=
  match d, d' with
  | .obj i s, .obj i' s' => (i == i') && preservedSlotsB s s'
  | d, d' => d == d'

/-- All slot values are "simple" for cloneClass: neither objects nor
arrays, so assignment stores them directly (null, undefined, scalars and
functions). -/
def allSimpleSlotsB : JSlots → Bool
  | .nil => true
  | .cons _ v tl => !isObjValB v && allSimpleSlotsB tl

/-- The claim C8 copy relation between the destination before and after
cloneClass, slot by slot of the source: a slot for which the destination's
chain yields any descriptor is left at its old own value; a slot with no
descriptor is copied from the source. -/
def classCopyOkB (dest dest' : ClassObj) : JSlots → Bool
  | .nil => true
  | .cons p v tl =>
      (match getPropDescC dest p with
        | some _ => dest'.own.lookup p == dest.own.lookup p
        | none => dest'.own.lookup p == some v)
        && classCopyOkB dest dest' tl

/-- A flat-aggregate slot value admissible in the amended claim C1: a
scalar other than null and other than a function. -/
def nonNullScalarB : JVal → Bool
  | .undef => true
  | .bool _ => true
  | .num _ => true
  | .str _ => true
  | _ => false

/-- All slot values satisfy `nonNullScalarB`. -/
def allNonNullScalarSlotsB : JSlots → Bool
  | .nil => true
  | .cons _ v tl => nonNullScalarB v && allNonNullScalarSlotsB tl

/-- All slot values satisfy `scalarValB` (null allowed, functions and
aggregates not). -/
def allScalarSlotsB : JSlots → Bool
  | .nil => true
  | .cons _ v tl => scalarValB v && allScalarSlotsB tl

/-- All slot values are directly assignable by merge's first test: neither
object-typed nor functions. -/
def allPrimSlotsB : JSlots → Bool
  | .nil => true
  | .cons _ v tl => isPrimB v && allPrimSlotsB tl

/-- The diff changes computes on a flat candidate against an original
object: keep, in order, exactly the candidate slots that are neither
loosely equal to nor both-falsy with the original's value under the same
key. -/
def flatDiff (cs os : JSlots) : JSlots :=
  match cs with
  | .nil => .nil
  | .cons p v tl =>
      let w := (os.lookup p).getD .undef
      if looseEqB v w || (falsyB v && falsyB w) then flatDiff tl os
      else .cons p v (flatDiff tl os)

/-- Fold a list of assignments over an object's slots (the effect of
merge's unconditional scalar writes, in order). -/
def setAll (s : JSlots) : JSlots → JSlots
  | .nil => s
  | .cons k v tl => setAll (s.set k v) tl

/-- The result state of the diff accumulator of changes after recording a
block of slots: nothing recorded leaves the accumulator alone; the first
recording allocates the result object (consuming one identity tag). -/
def resAfter (res : Option (Nat × JSlots)) (n : Nat) (d : JSlots) :
    Option (Nat × JSlots) × Nat :=
  match res with
  | none =>
      match d with
      | .nil => (none, n)
      | _ => (some (n, d), n + 1)
  | some (i, acc) => (some (i, acc.append d), n)

/-- The claim C1 round-trip conclusion, per slot of the candidate: the
merged clone's value under the slot's key is loosely equal to the
candidate's value, or both are falsy (the equivalence the falsy/loose skip
rules of changes preserve). -/
def roundtripSlotsOkB (c' : JVal) : JSlots → Bool
  | .nil => true
  | .cons p v tl =>
      (match getProp c' p with
        | .ok r => looseEqB r v || (falsyB r && falsyB v)
        | .error _ => false)
        && roundtripSlotsOkB c' tl

/-- No key of `slots` is already bound in `acc`. -/
def keysDisjointB : JSlots → JSlots → Bool
  | .nil, _ => true
  | .cons k _ tl, acc => !hasKeyB acc k && keysDisjointB tl acc

/-- Each slot binding of `part`, read back from `o` through getProp,
returns exactly the bound value (the situation of changes(x, x), where
every lookup hits the identical subterm). -/
def alignedSlotsB (part : JSlots) (o : JVal) : Bool :=
  match part with
  | .nil => true
  | .cons p v tl =>
      (match getProp o p with
        | .ok w => w == v
        | .error _ => false)
        && alignedSlotsB tl o

/-- Each element of `part`, read back from `o` at its index key, returns
exactly that element. -/
def alignedElemsB (i : Nat) (part : JList) (o : JVal) : Bool :=
  match part with
  | .nil => true
  | .cons v tl =>
      (match getIdxProp o i with
        | .ok w => w == v
        | .error _ => false)
        && alignedElemsB (i + 1) tl o

/-! ### Basic lemmas about the list and slot structures -/

theorem JList.append_nil (a : JList) : a.append .nil = a :=
  match a with
  | .nil => rfl
  | .cons v tl => by simp [JList.append, JList.append_nil tl]

theorem JList.append_assoc (a b c : JList) :
    (a.append b).append c = a.append (b.append c) :=
  match a with
  | .nil => rfl
  | .cons v tl => by simp [JList.append, JList.append_assoc tl]

theorem JList.push_append (a : JList) (v : JVal) (w : JList) :
    (a.push v).append w = a.append (.cons v w) := by
  rw [JList.push, JList.append_assoc]
  rfl

theorem JSlots.lookup_set_ne (s : JSlots) (k p : String) (x : JVal)
    (h : k ≠ p) : (s.set k x).lookup p = s.lookup p :=
  match s with
  | .nil => by simp [JSlots.set, JSlots.lookup, h]
  | .cons k' v tl => by
      by_cases hk : k' = k
      · subst hk
        simp [JSlots.set, JSlots.lookup, h]
      · simp [JSlots.set, hk, JSlots.lookup,
          JSlots.lookup_set_ne tl k p x h]

theorem JSlots.lookup_set_self (s : JSlots) (k : String) (x : JVal) :
    (s.set k x).lookup k = some x :=
  match s with
  | .nil => by simp [JSlots.set, JSlots.lookup]
  | .cons k' v tl => by
      by_cases hk : k' = k
      · subst hk
        simp [JSlots.set, JSlots.lookup]
      · simp [JSlots.set, hk, JSlots.lookup,
          JSlots.lookup_set_self tl k x]

/-! ### Claim C6: mergeArrays is dedup-concatenation -/

theorem mergeArraysGo_append (a1 a2 a : JList) :
    mergeArraysGo a1 a a2 = a.append (keepNewJ a1 a2) :=
  match a2 with
  | .nil => by simp [mergeArraysGo, keepNewJ, JList.append_nil]
  | .cons v tl => by
      by_cases h : includesJ a1 v = true
      · simp [mergeArraysGo, keepNewJ, h, mergeArraysGo_append a1 tl a]
      · simp only [Bool.not_eq_true] at h
        simp [mergeArraysGo, keepNewJ, h, mergeArraysGo_append a1 tl,
          JList.push_append]

/-- C6: mergeArrays(a1, a2) returns a1's elements in order followed by
exactly those elements of a2 (in order) not already present in a1 by
SameValueZero value-equality; duplicates inside a1 alone or inside a2
alone are preserved.  In particular mergeArrays([1,2,3],[2,3,4]) is
[1,2,3,4] and mergeArrays([],[1,1,2]) is [1,1,2]. -/
theorem mergeArrays_concat_dedup :
    (∀ a1 a2 : JList, mergeArraysL a1 a2 = a1.append (keepNewJ a1 a2))
    ∧ mergeArraysL
        (.cons (.num 1) (.cons (.num 2) (.cons (.num 3) .nil)))
        (.cons (.num 2) (.cons (.num 3) (.cons (.num 4) .nil)))
      = .cons (.num 1) (.cons (.num 2) (.cons (.num 3)
          (.cons (.num 4) .nil)))
    ∧ mergeArraysL .nil (.cons (.num 1) (.cons (.num 1) (.cons (.num 2) .nil)))
      = .cons (.num 1) (.cons (.num 1) (.cons (.num 2) .nil)) := by
  refine ⟨fun a1 a2 => ?_, rfl, rfl⟩
  rw [mergeArraysL, mergeArraysGo_append]

/-! ### Claim C9: clone has no recursion bound on cyclic inputs -/

/-- C9: the recursion of clone admits no finite depth bound on the cyclic
aggregate: for every fuel, the depth-bounded recursion skeleton of clone
runs out of fuel.  The source contains no depth guard or cycle detection
(its own comment reads "todo: eliminate circular references"), so a cyclic
input recurses until the JS call stack is exhausted instead of failing
with the explicit RecursionLimitExceeded error the specification
mandates. -/
theorem clone_unbounded_on_cycle :
    ∀ f, cloneDepthF f cyclicHeap (.ref 0) = none := by
  intro f
  induction f with
  | zero => simp [cloneDepthF]
  | succ f ih =>
      have h : heapSlots cyclicHeap 0 = [("self", HVal.ref 0)] := rfl
      simp [cloneDepthF, cloneDepthSlotsF, h, ih]

theorem JSlots.appendAssoc (a b c : JSlots) :
    (a.append b).append c = a.append (b.append c) :=
  match a with
  | .nil => rfl
  | .cons k v tl => by simp [JSlots.append, JSlots.appendAssoc tl]

theorem JSlots.set_eq_append (acc : JSlots) (p : String) (v : JVal)
    (h : hasKeyB acc p = false) :
    acc.set p v = acc.append (.cons p v .nil) :=
  match acc with
  | .nil => rfl
  | .cons k w tl => by
      have hk : ¬(k = p) := by
        intro hc
        simp [hasKeyB, JSlots.lookup, hc] at h
      have htl : hasKeyB tl p = false := by
        simpa [hasKeyB, JSlots.lookup, hk] using h
      simp [JSlots.set, hk, JSlots.append, JSlots.set_eq_append tl p v htl]

theorem JList.length_append (a b : JList) :
    (a.append b).length = a.length + b.length :=
  match a with
  | .nil => by simp [JList.append, JList.length]
  | .cons v tl => by
      simp [JList.append, JList.length, JList.length_append tl b]
      omega

theorem JList.push_length (l : JList) (v : JVal) :
    (l.push v).length = l.length + 1 := by
  simp [JList.push, JList.length_append, JList.length]

theorem JList.setIdx_length_eq_push (l : JList) (v : JVal) :
    l.setIdx l.length v = l.push v :=
  match l with
  | .nil => rfl
  | .cons w tl => by
      simp [JList.length, JList.setIdx, JList.push, JList.append,
        JList.setIdx_length_eq_push tl v]

theorem hasKeyB_set_ne (acc : JSlots) (p q : String) (v : JVal)
    (h : q ≠ p) : hasKeyB (acc.set p v) q = hasKeyB acc q := by
  rw [hasKeyB, hasKeyB, JSlots.lookup_set_ne acc p q v (fun hc => h hc.symm)]

theorem keysDisjointB_set (tl acc : JSlots) (p : String) (v : JVal)
    (hd : keysDisjointB tl acc = true) (hp : hasKeyB tl p = false) :
    keysDisjointB tl (acc.set p v) = true :=
  match tl with
  | .nil => rfl
  | .cons k w tl₂ => by
      have hk : ¬(k = p) := by
        intro hc
        simp [hasKeyB, JSlots.lookup, hc] at hp
      have hp₂ : hasKeyB tl₂ p = false := by
        simpa [hasKeyB, JSlots.lookup, hk] using hp
      have hd₂ := (by simpa [keysDisjointB] using hd :
        hasKeyB acc k = false ∧ keysDisjointB tl₂ acc = true)
      simp [keysDisjointB, hasKeyB_set_ne acc p k v hk, hd₂.1,
        keysDisjointB_set tl₂ acc p v hd₂.2 hp₂]

theorem keysDisjointB_nil (s : JSlots) : keysDisjointB s .nil = true :=
  match s with
  | .nil => rfl
  | .cons k v tl => by
      simp [keysDisjointB, hasKeyB, JSlots.lookup, keysDisjointB_nil tl]

theorem hasKeyB_keys (s : JSlots) (k : String) :
    hasKeyB s k = s.keys.contains k :=
  match s with
  | .nil => rfl
  | .cons k' v tl => by
      by_cases hk : k' = k
      · simp [hasKeyB, JSlots.lookup, JSlots.keys, hk]
      · have ih := hasKeyB_keys tl k
        rw [hasKeyB] at ih
        simpa [hasKeyB, JSlots.lookup, JSlots.keys, hk, Ne.symm hk] using ih

theorem nodupKeysB_of_keys_eq :
    ∀ (s t : JSlots), s.keys = t.keys → nodupKeysB s = true →
      nodupKeysB t = true
  | .nil, .nil, _, _ => rfl
  | .nil, .cons _ _ _, h, _ => by simp [JSlots.keys] at h
  | .cons _ _ _, .nil, h, _ => by simp [JSlots.keys] at h
  | .cons k v tl, .cons k' v' tl', h, hnd => by
      simp only [JSlots.keys, List.cons.injEq] at h
      obtain ⟨hk, htl⟩ := h
      subst hk
      have hnd' := (by simpa [nodupKeysB] using hnd :
        hasKeyB tl k = false ∧ nodupKeysB tl = true)
      have h1 : hasKeyB tl' k = false := by
        rw [hasKeyB_keys, ← htl, ← hasKeyB_keys]
        exact hnd'.1
      simp [nodupKeysB, h1,
        nodupKeysB_of_keys_eq tl tl' htl hnd'.2]

theorem allGe_mono (l : List Nat) (a b : Nat) (h : l.all (fun k => a ≤ k) = true)
    (hba : b ≤ a) : l.all (fun k => b ≤ k) = true := by
  simp only [List.all_eq_true, decide_eq_true_eq] at h ⊢
  intro x hx
  exact le_trans hba (h x hx)

mutual

theorem structEqB_refl (v : JVal) : structEqB v v = true :=
  match v with
  | .undef => rfl
  | .null => rfl
  | .bool b => by simp [structEqB]
  | .num n => by simp [structEqB]
  | .str s => by simp [structEqB]
  | .func i => by simp [structEqB]
  | .arr i es => by simp [structEqB, structEqListB_refl es]
  | .obj i ss => by simp [structEqB, structEqSlotsB_refl ss]

theorem structEqListB_refl (l : JList) : structEqListB l l = true :=
  match l with
  | .nil => rfl
  | .cons v tl => by
      simp [structEqListB, structEqB_refl v, structEqListB_refl tl]

theorem structEqSlotsB_refl (s : JSlots) : structEqSlotsB s s = true :=
  match s with
  | .nil => rfl
  | .cons k v tl => by
      simp [structEqSlotsB, structEqB_refl v, structEqSlotsB_refl tl]

end

theorem JSlots.appendNil (a : JSlots) : a.append .nil = a :=
  match a with
  | .nil => rfl
  | .cons k v tl => by simp [JSlots.append, JSlots.appendNil tl]

/-! ### Claim C2: clone yields a structurally equal, fresh aggregate -/

theorem cloneSlots_cons_notObj (p : String) (o : JVal) (tl : JSlots)
    (dest : JVal) (n : Nat) (h : isObjValB o = false) :
    cloneSlots (.cons p o tl) dest n
      = (do
          let d ← setProp dest p o
          cloneSlots tl d n) := by
  cases o <;> first | rfl | simp [isObjValB] at h

theorem cloneElems_cons_notObj (i : Nat) (o : JVal) (tl : JList)
    (dest : JVal) (n : Nat) (h : isObjValB o = false) :
    cloneElems i (.cons o tl) dest n
      = (do
          let d ← setIdxProp dest i o
          cloneElems (i + 1) tl d n) := by
  cases o <;> first | rfl | simp [isObjValB] at h

theorem collectIds_prim (o : JVal) (h : isObjValB o = false) :
    collectIds o = [] := by
  cases o <;> first | rfl | simp [isObjValB] at h

theorem wfKeysB_prim (o : JVal) (h : isObjValB o = false) :
    wfKeysB o = true := by
  cases o <;> first | rfl | simp [isObjValB] at h

mutual

theorem cloneSlots_spec :
    ∀ (slots : JSlots) (id : Nat) (acc : JSlots) (n : Nat),
      nodupKeysB slots = true →
      wfKeysSlotsB slots = true →
      hasCloneCapSlotsB slots = false →
      keysDisjointB slots acc = true →
      ∃ ns n',
        cloneSlots slots (.obj id acc) n = .ok (.obj id (acc.append ns), n')
        ∧ ns.keys = slots.keys
        ∧ structEqSlotsB ns slots = true
        ∧ wfKeysSlotsB ns = true
        ∧ n ≤ n'
        ∧ (collectIdsSlots ns).all (fun k => n ≤ k) = true
  | .nil, id, acc, n => by
      intro _ _ _ _
      exact ⟨.nil, n, by simp [cloneSlots, JSlots.appendNil], rfl, rfl, rfl,
        le_refl n, rfl⟩
  | .cons p o tl, id, acc, n => by
      intro hnd hwf hcap hdisj
      have hnd' := (by simpa [nodupKeysB] using hnd :
        hasKeyB tl p = false ∧ nodupKeysB tl = true)
      have hwf' := (by simpa [wfKeysSlotsB] using hwf :
        wfKeysB o = true ∧ wfKeysSlotsB tl = true)
      have hcap' : hasCloneCapB o = false ∧ hasCloneCapSlotsB tl = false := by
        simpa [hasCloneCapSlotsB, Bool.or_eq_false_iff] using hcap
      have hdisj' := (by simpa [keysDisjointB] using hdisj :
        hasKeyB acc p = false ∧ keysDisjointB tl acc = true)
      by_cases ho : isObjValB o = true
      · cases o with
        | arr oaid oelems =>
            obtain ⟨nl, n₁, hcl₁, hse₁, hwf₁, hle₁, hids₁⟩ :=
              cloneElems_spec oelems n JList.nil (n + 1)
                (by simpa [wfKeysB] using hwf'.1)
                (by simpa [hasCloneCapB] using hcap'.1)
            obtain ⟨ns', n', hcl₂, hkeys₂, hse₂, hwf₂, hle₂, hids₂⟩ :=
              cloneSlots_spec tl id (acc.set p (.arr n nl)) n₁ hnd'.2 hwf'.2
                hcap'.2 (keysDisjointB_set tl acc p _ hdisj'.2 hnd'.1)
            refine ⟨.cons p (.arr n nl) ns', n', ?_, ?_, ?_, ?_, ?_, ?_⟩
            · simp only [cloneSlots, clone, Bind.bind, Except.bind]
              rw [show JList.nil.length = 0 from rfl] at hcl₁
              rw [hcl₁]
              simp only [setProp]
              rw [show JList.append .nil nl = nl from rfl] at *
              rw [hcl₂, JSlots.set_eq_append acc p _ hdisj'.1,
                JSlots.appendAssoc]
              rfl
            · simp [JSlots.keys, hkeys₂]
            · simp [structEqSlotsB, structEqB, hse₁, hse₂]
            · simp [wfKeysSlotsB, wfKeysB, hwf₁, hwf₂]
            · omega
            · simp only [collectIdsSlots, collectIds, List.all_append,
                List.all_cons, Bool.and_eq_true, decide_eq_true_eq]
              refine ⟨⟨le_refl n |>.trans (by omega), ?_⟩, ?_⟩
              · exact allGe_mono _ (n + 1) n hids₁ (by omega)
              · exact allGe_mono _ n₁ n hids₂ (by omega)
        | obj ooid oslots =>
            have hwfo := (by simpa [wfKeysB] using hwf'.1 :
              nodupKeysB oslots = true ∧ wfKeysSlotsB oslots = true)
            have hcapo : (match oslots.lookup "clone" with
                | some (.func _) => true
                | _ => false) = false
                ∧ hasCloneCapSlotsB oslots = false := by
              simpa [hasCloneCapB, Bool.or_eq_false_iff] using hcap'.1
            obtain ⟨nso, n₁, hcl₁, hkeys₁, hse₁, hwf₁, hle₁, hids₁⟩ :=
              cloneSlots_spec oslots n JSlots.nil (n + 1) hwfo.1 hwfo.2
                hcapo.2 (keysDisjointB_nil oslots)
            obtain ⟨ns', n', hcl₂, hkeys₂, hse₂, hwf₂, hle₂, hids₂⟩ :=
              cloneSlots_spec tl id (acc.set p (.obj n nso)) n₁ hnd'.2 hwf'.2
                hcap'.2 (keysDisjointB_set tl acc p _ hdisj'.2 hnd'.1)
            refine ⟨.cons p (.obj n nso) ns', n', ?_, ?_, ?_, ?_, ?_, ?_⟩
            · simp only [cloneSlots, clone, Bind.bind, Except.bind]
              have hnotcap : ∀ f, oslots.lookup "clone" ≠ some (.func f) := by
                intro f hf
                rw [hf] at hcapo
                simpa using hcapo.1
              split
              · next f hf => exact absurd hf (hnotcap f)
              · rw [show JSlots.append .nil nso = nso from rfl] at hcl₁
                rw [hcl₁]
                simp only [setProp]
                rw [hcl₂, JSlots.set_eq_append acc p _ hdisj'.1,
                  JSlots.appendAssoc]
                rfl
            · simp [JSlots.keys, hkeys₂]
            · simp [structEqSlotsB, structEqB, hse₁, hse₂]
            · have hnso : nodupKeysB nso = true :=
                nodupKeysB_of_keys_eq oslots nso hkeys₁.symm hwfo.1
              simp [wfKeysSlotsB, wfKeysB, hnso, hwf₁, hwf₂]
            · omega
            · simp only [collectIdsSlots, collectIds, List.all_append,
                List.all_cons, Bool.and_eq_true, decide_eq_true_eq]
              refine ⟨⟨by omega, ?_⟩, ?_⟩
              · exact allGe_mono _ (n + 1) n hids₁ (by omega)
              · exact allGe_mono _ n₁ n hids₂ (by omega)
        | undef => simp [isObjValB] at ho
        | null => simp [isObjValB] at ho
        | bool b => simp [isObjValB] at ho
        | num m => simp [isObjValB] at ho
        | str t => simp [isObjValB] at ho
        | func f => simp [isObjValB] at ho
      · simp only [Bool.not_eq_true] at ho
        obtain ⟨ns', n', hcl₂, hkeys₂, hse₂, hwf₂, hle₂, hids₂⟩ :=
          cloneSlots_spec tl id (acc.set p o) n hnd'.2 hwf'.2 hcap'.2
            (keysDisjointB_set tl acc p o hdisj'.2 hnd'.1)
        refine ⟨.cons p o ns', n', ?_, ?_, ?_, ?_, ?_, ?_⟩
        · rw [cloneSlots_cons_notObj p o tl _ n ho]
          simp only [setProp, Bind.bind, Except.bind]
          rw [hcl₂, JSlots.set_eq_append acc p o hdisj'.1,
            JSlots.appendAssoc]
          rfl
        · simp [JSlots.keys, hkeys₂]
        · simp [structEqSlotsB, structEqB_refl, hse₂]
        · simp [wfKeysSlotsB, wfKeysB_prim o ho, hwf₂]
        · exact hle₂
        · simp [collectIdsSlots, collectIds_prim o ho, hids₂]

theorem cloneElems_spec :
    ∀ (elems : JList) (aid : Nat) (accl : JList) (n : Nat),
      wfKeysListB elems = true →
      hasCloneCapListB elems = false →
      ∃ nl n',
        cloneElems accl.length elems (.arr aid accl) n
          = .ok (.arr aid (accl.append nl), n')
        ∧ structEqListB nl elems = true
        ∧ wfKeysListB nl = true
        ∧ n ≤ n'
        ∧ (collectIdsList nl).all (fun k => n ≤ k) = true
  | .nil, aid, accl, n => by
      intro _ _
      exact ⟨.nil, n, by simp [cloneElems, JList.append_nil], rfl, rfl,
        le_refl n, rfl⟩
  | .cons o tl, aid, accl, n => by
      intro hwf hcap
      have hwf' := (by simpa [wfKeysListB] using hwf :
        wfKeysB o = true ∧ wfKeysListB tl = true)
      have hcap' : hasCloneCapB o = false ∧ hasCloneCapListB tl = false := by
        simpa [hasCloneCapListB, Bool.or_eq_false_iff] using hcap
      by_cases ho : isObjValB o = true
      · cases o with
        | arr oaid oelems =>
            obtain ⟨nl₁, n₁, hcl₁, hse₁, hwf₁, hle₁, hids₁⟩ :=
              cloneElems_spec oelems n JList.nil (n + 1)
                (by simpa [wfKeysB] using hwf'.1)
                (by simpa [hasCloneCapB] using hcap'.1)
            obtain ⟨nl', n', hcl₂, hse₂, hwf₂, hle₂, hids₂⟩ :=
              cloneElems_spec tl aid (accl.push (.arr n nl₁)) n₁ hwf'.2
                hcap'.2
            refine ⟨.cons (.arr n nl₁) nl', n', ?_, ?_, ?_, ?_, ?_⟩
            · simp only [cloneElems, clone, Bind.bind, Except.bind]
              rw [show JList.nil.length = 0 from rfl] at hcl₁
              rw [hcl₁]
              simp only [setIdxProp]
              rw [show JList.append .nil nl₁ = nl₁ from rfl] at *
              rw [JList.setIdx_length_eq_push]
              rw [JList.push_length accl _] at hcl₂
              rw [hcl₂]
              rw [JList.push, JList.append_assoc]
              rfl
            · simp [structEqListB, structEqB, hse₁, hse₂]
            · simp [wfKeysListB, wfKeysB, hwf₁, hwf₂]
            · omega
            · simp only [collectIdsList, collectIds, List.all_append,
                List.all_cons, Bool.and_eq_true, decide_eq_true_eq]
              refine ⟨⟨by omega, ?_⟩, ?_⟩
              · exact allGe_mono _ (n + 1) n hids₁ (by omega)
              · exact allGe_mono _ n₁ n hids₂ (by omega)
        | obj ooid oslots =>
            have hwfo := (by simpa [wfKeysB] using hwf'.1 :
              nodupKeysB oslots = true ∧ wfKeysSlotsB oslots = true)
            have hcapo : (match oslots.lookup "clone" with
                | some (.func _) => true
                | _ => false) = false
                ∧ hasCloneCapSlotsB oslots = false := by
              simpa [hasCloneCapB, Bool.or_eq_false_iff] using hcap'.1
            obtain ⟨nso, n₁, hcl₁, hkeys₁, hse₁, hwf₁, hle₁, hids₁⟩ :=
              cloneSlots_spec oslots n JSlots.nil (n + 1) hwfo.1 hwfo.2
                hcapo.2 (keysDisjointB_nil oslots)
            obtain ⟨nl', n', hcl₂, hse₂, hwf₂, hle₂, hids₂⟩ :=
              cloneElems_spec tl aid (accl.push (.obj n nso)) n₁ hwf'.2
                hcap'.2
            refine ⟨.cons (.obj n nso) nl', n', ?_, ?_, ?_, ?_, ?_⟩
            · simp only [cloneElems, clone, Bind.bind, Except.bind]
              have hnotcap : ∀ f, oslots.lookup "clone" ≠ some (.func f) := by
                intro f hf
                rw [hf] at hcapo
                simpa using hcapo.1
              split
              · next f hf => exact absurd hf (hnotcap f)
              · rw [show JSlots.append .nil nso = nso from rfl] at hcl₁
                rw [hcl₁]
                simp only [setIdxProp]
                rw [JList.setIdx_length_eq_push]
                rw [JList.push_length accl _] at hcl₂
                rw [hcl₂]
                rw [JList.push, JList.append_assoc]
                rfl
            · simp [structEqListB, structEqB, hse₁, hse₂]
            · have hnso : nodupKeysB nso = true :=
                nodupKeysB_of_keys_eq oslots nso hkeys₁.symm hwfo.1
              simp [wfKeysListB, wfKeysB, hnso, hwf₁, hwf₂]
            · omega
            · simp only [collectIdsList, collectIds, List.all_append,
                List.all_cons, Bool.and_eq_true, decide_eq_true_eq]
              refine ⟨⟨by omega, ?_⟩, ?_⟩
              · exact allGe_mono _ (n + 1) n hids₁ (by omega)
              · exact allGe_mono _ n₁ n hids₂ (by omega)
        | undef => simp [isObjValB] at ho
        | null => simp [isObjValB] at ho
        | bool b => simp [isObjValB] at ho
        | num m => simp [isObjValB] at ho
        | str t => simp [isObjValB] at ho
        | func f => simp [isObjValB] at ho
      · simp only [Bool.not_eq_true] at ho
        obtain ⟨nl', n', hcl₂, hse₂, hwf₂, hle₂, hids₂⟩ :=
          cloneElems_spec tl aid (accl.push o) n hwf'.2 hcap'.2
        refine ⟨.cons o nl', n', ?_, ?_, ?_, ?_, ?_⟩
        · rw [cloneElems_cons_notObj _ o tl _ n ho]
          simp only [setIdxProp, Bind.bind, Except.bind]
          rw [JList.setIdx_length_eq_push]
          rw [JList.push_length accl o] at hcl₂
          rw [hcl₂]
          rw [JList.push, JList.append_assoc]
          rfl
        · simp [structEqListB, structEqB_refl, hse₂]
        · simp [wfKeysListB, wfKeysB_prim o ho, hwf₂]
        · exact hle₂
        · simp [collectIdsList, collectIds_prim o ho, hids₂]

end

/-- C2: for a well-formed aggregate with no custom clone capability in its
subtrees, clone (into a fresh empty destination) succeeds with a result
that is deep structurally equal to the source and shares no aggregate or
sequence reference with it (the identity-tag sets are disjoint; functions
are copied by reference, by design). -/
theorem clone_deep_equal_and_fresh (xi : Nat) (xs : JSlots) (n : Nat)
    (y : JVal) (m : Nat)
    (hwf : wfKeysB (.obj xi xs) = true)
    (hcap : hasCloneCapB (.obj xi xs) = false)
    (hbelow : idsBelowB (.obj xi xs) n = true)
    (heq : clone (.obj xi xs) (.obj n .nil) (n + 1) = .ok (y, m)) :
    structEqB y (.obj xi xs) = true ∧ idsDisjointB y (.obj xi xs) = true := by
  have hwf' := (by simpa [wfKeysB] using hwf :
    nodupKeysB xs = true ∧ wfKeysSlotsB xs = true)
  have hcap' : hasCloneCapSlotsB xs = false := by
    have := (by simpa [hasCloneCapB, Bool.or_eq_false_iff] using hcap :
      (match xs.lookup "clone" with
        | some (.func _) => true
        | _ => false) = false ∧ hasCloneCapSlotsB xs = false)
    exact this.2
  obtain ⟨ns, n', hcl, hkeys, hse, hwfns, hle, hids⟩ :=
    cloneSlots_spec xs n .nil (n + 1) hwf'.1 hwf'.2 hcap'
      (keysDisjointB_nil xs)
  have hclone : clone (.obj xi xs) (.obj n .nil) (n + 1)
      = .ok (.obj n ns, n') := by
    simpa [clone, JSlots.append] using hcl
  rw [hclone] at heq
  simp only [Except.ok.injEq, Prod.mk.injEq] at heq
  obtain ⟨hy, hm⟩ := heq
  subst hy
  constructor
  · simpa [structEqB] using hse
  · simp only [idsBelowB, List.all_eq_true, decide_eq_true_eq] at hbelow
    simp only [idsDisjointB, collectIds, List.all_cons, List.all_eq_true,
      Bool.and_eq_true, decide_eq_true_eq]
    simp only [List.all_eq_true, decide_eq_true_eq] at hids
    constructor
    · simp only [Bool.not_eq_true']
      by_contra hcon
      simp only [Bool.not_eq_false] at hcon
      have hmem : n ∈ collectIds (.obj xi xs) := by
        simpa [collectIds] using hcon
      have := hbelow n hmem
      omega
    · intro k hk
      simp only [Bool.not_eq_true']
      by_contra hcon
      simp only [Bool.not_eq_false] at hcon
      have hmem : k ∈ collectIds (.obj xi xs) := by
        simpa [collectIds] using hcon
      have h1 := hbelow k hmem
      have h2 := hids k hk
      omega

/-- C2 witness: cloning a nested two-level aggregate from counter 5 yields
a structurally equal copy whose identity tags 5 and 6 are disjoint from
the source's tags 0 and 1. -/
theorem clone_deep_equal_and_fresh_witness :
    wfKeysB (.obj 0 (.cons "a" (.obj 1 (.cons "b" (.num 2) .nil)) .nil))
      = true
    ∧ hasCloneCapB
        (.obj 0 (.cons "a" (.obj 1 (.cons "b" (.num 2) .nil)) .nil)) = false
    ∧ idsBelowB (.obj 0 (.cons "a" (.obj 1 (.cons "b" (.num 2) .nil)) .nil))
        5 = true
    ∧ clone (.obj 0 (.cons "a" (.obj 1 (.cons "b" (.num 2) .nil)) .nil))
        (.obj 5 .nil) 6
      = .ok (.obj 5 (.cons "a" (.obj 6 (.cons "b" (.num 2) .nil)) .nil), 7)
    ∧ structEqB (.obj 5 (.cons "a" (.obj 6 (.cons "b" (.num 2) .nil)) .nil))
        (.obj 0 (.cons "a" (.obj 1 (.cons "b" (.num 2) .nil)) .nil)) = true
    ∧ idsDisjointB
        (.obj 5 (.cons "a" (.obj 6 (.cons "b" (.num 2) .nil)) .nil))
        (.obj 0 (.cons "a" (.obj 1 (.cons "b" (.num 2) .nil)) .nil))
      = true :=
  ⟨by decide, by decide, by decide, rfl,
   (clone_deep_equal_and_fresh 0
     (.cons "a" (.obj 1 (.cons "b" (.num 2) .nil)) .nil) 5
     (.obj 5 (.cons "a" (.obj 6 (.cons "b" (.num 2) .nil)) .nil)) 7
     (by decide) (by decide) (by decide) rfl).1,
   (clone_deep_equal_and_fresh 0
     (.cons "a" (.obj 1 (.cons "b" (.num 2) .nil)) .nil) 5
     (.obj 5 (.cons "a" (.obj 6 (.cons "b" (.num 2) .nil)) .nil)) 7
     (by decide) (by decide) (by decide) rfl).2⟩

/-! ### Claims C3 and C4: merge's per-slot copy paths -/

/-- C3 counterexample: a callable source slot is not assigned.  With
dest = \x7ba: 1\x7d and src = \x7ba: f\x7d (f a function), the claim says merge sets
dest.a to f unconditionally; in fact `typeof f === 'function'` routes the
slot away from the direct-assignment branch, dest.a has a non-object value,
and the slot is left untouched. -/
theorem merge_callable_not_assigned :
    merge (.obj 0 (.cons "a" (.num 1) .nil))
        (.obj 1 (.cons "a" (.func 7) .nil)) 10
      = .ok (.obj 0 (.cons "a" (.num 1) .nil), 10)
    ∧ getProp (.obj 0 (.cons "a" (.num 1) .nil)) "a" ≠ .ok (.func 7) :=
  ⟨rfl, by simp [getProp, JSlots.lookup]⟩

/-- C3 amended: merge assigns src[p] to dest[p] unconditionally exactly for
source values that are neither object-typed nor callable; a callable source
value instead takes the object path, so when dest[p] is not object-typed
(absent, scalar, or itself a function) the slot is left unchanged. -/
theorem merge_scalar_overwrites :
    (∀ (i : Nat) (s : JSlots) (p : String) (v : JVal) (j n : Nat),
      isPrimB v = true →
      merge (.obj i s) (.obj j (.cons p v .nil)) n
        = .ok (.obj i (s.set p v), n))
    ∧ (∀ (i : Nat) (s : JSlots) (p : String) (f : Nat) (j n : Nat),
      isObjectTypeB ((s.lookup p).getD .undef) = false →
      merge (.obj i s) (.obj j (.cons p (.func f) .nil)) n
        = .ok (.obj i s, n)) := by
  constructor
  · intro i s p v j n hv
    have h1 : (!isObjectTypeB v && !isFuncB v) = true := by
      simpa [isPrimB] using hv
    simp [merge, mergeSlots, h1, setProp, Bind.bind, Except.bind]
  · intro i s p f j n hw
    cases hv : (s.lookup p).getD .undef with
    | arr id es => rw [hv] at hw; simp [isObjectTypeB] at hw
    | obj id ss => rw [hv] at hw; simp [isObjectTypeB] at hw
    | null => rw [hv] at hw; simp [isObjectTypeB] at hw
    | undef =>
        simp [merge, mergeSlots, getProp, hv, isObjectTypeB, isFuncB,
          Bind.bind, Except.bind]
    | bool b =>
        simp [merge, mergeSlots, getProp, hv, isObjectTypeB, isFuncB,
          Bind.bind, Except.bind]
    | num m =>
        simp [merge, mergeSlots, getProp, hv, isObjectTypeB, isFuncB,
          Bind.bind, Except.bind]
    | str t =>
        simp [merge, mergeSlots, getProp, hv, isObjectTypeB, isFuncB,
          Bind.bind, Except.bind]
    | func g =>
        simp [merge, mergeSlots, getProp, hv, isObjectTypeB, isFuncB,
          Bind.bind, Except.bind]

/-- C3 witness: concrete applications of both halves of
`merge_scalar_overwrites`. -/
theorem merge_scalar_overwrites_witness :
    isPrimB (.num 5) = true
    ∧ merge (.obj 0 (.cons "a" (.num 1) .nil))
        (.obj 1 (.cons "a" (.num 5) .nil)) 3
        = .ok (.obj 0 (.cons "a" (.num 5) .nil), 3)
    ∧ isObjectTypeB ((JSlots.cons "a" (.num 1) .nil).lookup "a" |>.getD .undef)
        = false
    ∧ merge (.obj 0 (.cons "a" (.num 1) .nil))
        (.obj 1 (.cons "a" (.func 7) .nil)) 3
        = .ok (.obj 0 (.cons "a" (.num 1) .nil), 3) :=
  ⟨by decide,
   merge_scalar_overwrites.1 0 (.cons "a" (.num 1) .nil) "a" (.num 5) 1 3
     (by decide),
   by decide,
   merge_scalar_overwrites.2 0 (.cons "a" (.num 1) .nil) "a" 7 1 3
     (by decide)⟩

/-- C4 counterexample: merge does throw on a slot type mismatch.  With
dest = \x7ba: null\x7d and src = \x7ba: \x7bb: 1\x7d\x7d, the claim says the slot is left
unchanged and merge completes normally; in fact `typeof null === 'object'`
sends merge recursing into the null destination, where the strict-mode
property access throws a TypeError. -/
theorem merge_null_slot_typeerror :
    merge (.obj 0 (.cons "a" .null .nil))
        (.obj 1 (.cons "a" (.obj 2 (.cons "b" (.num 1) .nil)) .nil)) 10
      = .error .typeError := rfl

/-- C4 amended: merge completes normally and leaves the slot (indeed all of
dest) unchanged when src[p] is an aggregate and dest[p] is absent or a
non-object-typed value (a scalar, or a function); but a null dest[p] is
object-typed, so merge recurses into it and throws a TypeError as soon as
the aggregate src[p] has a slot (see `merge_null_slot_typeerror`). -/
theorem merge_mismatch_noop (i : Nat) (s : JSlots) (p : String) (v : JVal)
    (j n : Nat) (hv : isObjValB v = true)
    (hw : isObjectTypeB ((s.lookup p).getD .undef) = false) :
    merge (.obj i s) (.obj j (.cons p v .nil)) n = .ok (.obj i s, n) := by
  cases v <;> first
    | (simp [isObjValB] at hv; done)
    | (cases hv2 : (s.lookup p).getD .undef <;> first
        | (rw [hv2] at hw; simp [isObjectTypeB] at hw; done)
        | (simp [merge, mergeSlots, getProp, hv2, isObjectTypeB, isFuncB,
            Bind.bind, Except.bind]; done))

/-- C4 witness: a concrete application of `merge_mismatch_noop` (dest.a is
the scalar 1, src.a an aggregate; the slot survives untouched). -/
theorem merge_mismatch_noop_witness :
    isObjValB (.obj 2 (.cons "b" (.num 1) .nil)) = true
    ∧ isObjectTypeB ((JSlots.cons "a" (.num 1) .nil).lookup "a" |>.getD .undef)
        = false
    ∧ merge (.obj 0 (.cons "a" (.num 1) .nil))
        (.obj 1 (.cons "a" (.obj 2 (.cons "b" (.num 1) .nil)) .nil)) 4
        = .ok (.obj 0 (.cons "a" (.num 1) .nil), 4) :=
  ⟨by decide, by decide,
   merge_mismatch_noop 0 (.cons "a" (.num 1) .nil) "a"
     (.obj 2 (.cons "b" (.num 1) .nil)) 1 4 (by decide) (by decide)⟩

/-! ### Claim C10: the first skip test of changes is loose equality -/

/-- One unfolding step of changesSlots on a cons cell (definitional). -/
theorem changesSlots_cons_eq (k : String) (v : JVal) (tl : JSlots)
    (o : JVal) (n : Nat) (res : Option (Nat × JSlots)) :
    changesSlots (.cons k v tl) o n res
      = (do
          let orig ← getProp o k
          if looseEqB v orig then changesSlots tl o n res
          else if falsyB v then
            if falsyB orig then changesSlots tl o n res
            else changesSlots tl o (record res n k v).2 (record res n k v).1
          else if isObjValB v then
            if isObjValB orig then do
              let (d, n') ← changes v orig n
              match d with
              | .null => changesSlots tl o n' res
              | dd =>
                  changesSlots tl o (record res n' k dd).2 (record res n' k dd).1
            else changesSlots tl o (record res n k v).2 (record res n k v).1
          else changesSlots tl o (record res n k v).2 (record res n k v).1) := rfl

theorem hasKeyB_false_lookup_none (s : JSlots) (k : String)
    (h : hasKeyB s k = false) : s.lookup k = none := by
  cases hl : s.lookup k with
  | none => rfl
  | some v => rw [hasKeyB, hl] at h; simp at h

theorem record_no_key (res : Option (Nat × JSlots)) (n : Nat) (k p : String)
    (v : JVal) (hres : hasKeyOptB res p = false) (hk : k ≠ p) :
    hasKeyOptB (record res n k v).1 p = false := by
  cases res with
  | none => simp [record, hasKeyOptB, hasKeyB, JSlots.lookup, hk]
  | some pr =>
      obtain ⟨i, s⟩ := pr
      simp only [record, hasKeyOptB, hasKeyB] at hres ⊢
      rw [JSlots.lookup_set_ne s k p v hk]
      exact hres

theorem changesSlots_no_new_key (p : String) :
    ∀ (cs : JSlots) (o : JVal) (n : Nat) (res : Option (Nat × JSlots))
      (out : Option (Nat × JSlots) × Nat),
      changesSlots cs o n res = .ok out →
      cs.lookup p = none →
      hasKeyOptB res p = false →
      hasKeyOptB out.1 p = false
  | .nil, o, n, res, out => by
      intro heq _ hres
      simp only [changesSlots] at heq
      cases heq
      exact hres
  | .cons k v tl, o, n, res, out => by
      intro heq hlk hres
      have hk : k ≠ p := by
        by_contra hc
        simp [JSlots.lookup, hc] at hlk
      have htl : tl.lookup p = none := by
        simpa [JSlots.lookup, hk] using hlk
      rw [changesSlots_cons_eq] at heq
      cases hg : getProp o k with
      | error e => rw [hg] at heq; simp [Bind.bind, Except.bind] at heq
      | ok w =>
          rw [hg] at heq
          simp only [Bind.bind, Except.bind] at heq
          split_ifs at heq with h1 h2 h3 h4 h5
          · exact changesSlots_no_new_key p tl o n res out heq htl hres
          · exact changesSlots_no_new_key p tl o n res out heq htl hres
          · exact changesSlots_no_new_key p tl o _ _ out heq htl
              (record_no_key res n k p v hres hk)
          · -- recursive diff of two object-typed values
            cases hd : changes v w n with
            | error e => rw [hd] at heq; simp at heq
            | ok dn =>
                obtain ⟨d, n₃⟩ := dn
                rw [hd] at heq
                simp only at heq
                split at heq
                · exact changesSlots_no_new_key p tl o n₃ res out heq htl hres
                · exact changesSlots_no_new_key p tl o _ _ out heq htl
                    (record_no_key res n₃ k p _ hres hk)
          · exact changesSlots_no_new_key p tl o _ _ out heq htl
              (record_no_key res n k p v hres hk)
          · exact changesSlots_no_new_key p tl o _ _ out heq htl
              (record_no_key res n k p v hres hk)

theorem changesSlots_loose_skip (p : String) (v w : JVal) :
    ∀ (cs : JSlots) (o : JVal) (n : Nat) (res : Option (Nat × JSlots))
      (out : Option (Nat × JSlots) × Nat),
      changesSlots cs o n res = .ok out →
      nodupKeysB cs = true →
      cs.lookup p = some v →
      getProp o p = .ok w →
      looseEqB v w = true →
      hasKeyOptB res p = false →
      hasKeyOptB out.1 p = false
  | .nil, o, n, res, out => by
      intro _ _ hlk _ _ _
      simp [JSlots.lookup] at hlk
  | .cons k v' tl, o, n, res, out => by
      intro heq hnd hlk hgp hle hres
      by_cases hk : k = p
      · subst hk
        have hv : v' = v := by simpa [JSlots.lookup] using hlk
        subst hv
        have htl : tl.lookup k = none := by
          have := (by simpa [nodupKeysB] using hnd :
            hasKeyB tl k = false ∧ nodupKeysB tl = true)
          exact hasKeyB_false_lookup_none tl k this.1
        rw [changesSlots_cons_eq] at heq
        rw [hgp] at heq
        simp only [Bind.bind, Except.bind, hle, if_true] at heq
        exact changesSlots_no_new_key k tl o n res out heq htl hres
      · have hnd' : nodupKeysB tl = true := by
          have := (by simpa [nodupKeysB] using hnd :
            hasKeyB tl k = false ∧ nodupKeysB tl = true)
          exact this.2
        have hlk' : tl.lookup p = some v := by
          simpa [JSlots.lookup, hk] using hlk
        rw [changesSlots_cons_eq] at heq
        cases hg : getProp o k with
        | error e => rw [hg] at heq; simp [Bind.bind, Except.bind] at heq
        | ok w' =>
            rw [hg] at heq
            simp only [Bind.bind, Except.bind] at heq
            split_ifs at heq with h1 h2 h3 h4 h5
            · exact changesSlots_loose_skip p v w tl o n res out heq hnd'
                hlk' hgp hle hres
            · exact changesSlots_loose_skip p v w tl o n res out heq hnd'
                hlk' hgp hle hres
            · exact changesSlots_loose_skip p v w tl o _ _ out heq hnd'
                hlk' hgp hle (record_no_key res n k p v' hres hk)
            · cases hd : changes v' w' n with
              | error e => rw [hd] at heq; simp at heq
              | ok dn =>
                  obtain ⟨d, n₃⟩ := dn
                  rw [hd] at heq
                  simp only at heq
                  split at heq
                  · exact changesSlots_loose_skip p v w tl o n₃ res out heq
                      hnd' hlk' hgp hle hres
                  · exact changesSlots_loose_skip p v w tl o _ _ out heq hnd'
                      hlk' hgp hle (record_no_key res n₃ k p _ hres hk)
            · exact changesSlots_loose_skip p v w tl o _ _ out heq hnd'
                hlk' hgp hle (record_no_key res n k p v' hres hk)
            · exact changesSlots_loose_skip p v w tl o _ _ out heq hnd'
                hlk' hgp hle (record_no_key res n k p v' hres hk)

/-- C10: the first skip test of changes is JS loose (coercing) equality,
not identity or strict equality — any slot of the candidate whose value
compares loosely equal to the original's value (for instance the number 1
against the string "1") is reported unchanged: the result of changes binds
no such slot name. -/
theorem changes_skips_loose_equal (ci : Nat) (cs : JSlots) (o : JVal)
    (n : Nat) (p : String) (v w r : JVal) (n' : Nat)
    (hnd : nodupKeysB cs = true)
    (hlk : cs.lookup p = some v)
    (hgp : getProp o p = .ok w)
    (hle : looseEqB v w = true)
    (heq : changes (.obj ci cs) o n = .ok (r, n')) :
    resNoKeyB r p = true := by
  have hch : changes (.obj ci cs) o n
      = (do
          let (res, n₂) ← changesSlots cs o n none
          match res with
          | none => pure (JVal.null, n₂)
          | some (i, s) => pure (JVal.obj i s, n₂)) := rfl
  rw [hch] at heq
  cases hcs : changesSlots cs o n none with
  | error e => rw [hcs] at heq; simp [Bind.bind, Except.bind] at heq
  | ok out =>
      obtain ⟨res, n₂⟩ := out
      have hkey : hasKeyOptB (res, n₂).1 p = false :=
        changesSlots_loose_skip p v w cs o n none (res, n₂) hcs hnd hlk hgp
          hle (by simp [hasKeyOptB])
      rw [hcs] at heq
      simp only [Bind.bind, Except.bind] at heq
      cases res with
      | none =>
          simp only [pure] at heq
          cases heq
          simp [resNoKeyB]
      | some pr =>
          obtain ⟨i, s⟩ := pr
          simp only [pure] at heq
          cases heq
          simp only [hasKeyOptB] at hkey
          simp [resNoKeyB, hkey]

/-- C10 witness: changes(\x7ba: 1\x7d, \x7ba: "1"\x7d) reports no change for slot a
(indeed returns null), although the two values differ in type. -/
theorem changes_skips_loose_equal_witness :
    nodupKeysB (.cons "a" (.num 1) .nil) = true
    ∧ (JSlots.cons "a" (.num 1) .nil).lookup "a" = some (.num 1)
    ∧ getProp (.obj 0 (.cons "a" (.str "1") .nil)) "a" = .ok (.str "1")
    ∧ looseEqB (.num 1) (.str "1") = true
    ∧ changes (.obj 1 (.cons "a" (.num 1) .nil))
        (.obj 0 (.cons "a" (.str "1") .nil)) 5 = .ok (.null, 5)
    ∧ resNoKeyB .null "a" = true :=
  ⟨by decide, by decide, rfl, by decide, rfl,
   changes_skips_loose_equal 1 (.cons "a" (.num 1) .nil)
     (.obj 0 (.cons "a" (.str "1") .nil)) 5 "a" (.num 1) (.str "1") .null 5
     (by decide) (by decide) rfl (by decide) rfl⟩

/-! ### Claim C8: cloneClass's writability test -/

theorem cloneClassSkipB_vacuous (d : Desc) : cloneClassSkipB d = true := by
  cases d with
  | data w => cases w <;> simp [cloneClassSkipB, descWritableB, descSetUndefB]
  | accessor g s => simp [cloneClassSkipB, descWritableB]

theorem cloneClassAssignOne_inv (p : String) (o : JVal) (dest : ClassObj)
    (n : Nat) (d₁ : ClassObj) (n₁ : Nat)
    (heq : cloneClassAssignOne p o dest n = .ok (d₁, n₁)) :
    ∃ s, d₁.own = dest.own.set p s ∧ d₁.chain = dest.chain := by
  cases o with
  | arr oaid oelems =>
      rw [cloneClassAssignOne] at heq
      cases hv : cloneClassV (.arr oaid oelems) n with
      | error e => rw [hv] at heq; simp [Bind.bind, Except.bind] at heq
      | ok sn =>
          obtain ⟨s, n₂⟩ := sn
          rw [hv] at heq
          simp only [Bind.bind, Except.bind, Except.ok.injEq,
            Prod.mk.injEq] at heq
          exact ⟨s, by rw [← heq.1], by rw [← heq.1]⟩
  | obj ooid oslots =>
      rw [cloneClassAssignOne] at heq
      split at heq
      · simp at heq
      · cases hv : cloneClassV (.obj ooid oslots) n with
        | error e => rw [hv] at heq; simp [Bind.bind, Except.bind] at heq
        | ok sn =>
            obtain ⟨s, n₂⟩ := sn
            rw [hv] at heq
            simp only [Bind.bind, Except.bind, Except.ok.injEq,
              Prod.mk.injEq] at heq
            exact ⟨s, by rw [← heq.1], by rw [← heq.1]⟩
  | undef => exact ⟨.undef, by cases heq; exact ⟨rfl, rfl⟩⟩
  | null => exact ⟨.null, by cases heq; exact ⟨rfl, rfl⟩⟩
  | bool b => exact ⟨.bool b, by cases heq; exact ⟨rfl, rfl⟩⟩
  | num m => exact ⟨.num m, by cases heq; exact ⟨rfl, rfl⟩⟩
  | str t => exact ⟨.str t, by cases heq; exact ⟨rfl, rfl⟩⟩
  | func f => exact ⟨.func f, by cases heq; exact ⟨rfl, rfl⟩⟩

theorem cloneClassTopSlots_frame :
    ∀ (tl : JSlots) (dest : ClassObj) (n : Nat)
      (out : ClassObj × Nat),
      cloneClassTopSlots tl dest n = .ok out →
      out.1.chain = dest.chain
      ∧ ∀ q, hasKeyB tl q = false → out.1.own.lookup q = dest.own.lookup q
  | .nil, dest, n, out => by
      intro heq
      cases heq
      exact ⟨rfl, fun _ _ => rfl⟩
  | .cons p v tl, dest, n, out => by
      intro heq
      rw [cloneClassTopSlots] at heq
      have step :
          ∀ (d₁ : ClassObj) (n₁ : Nat),
            cloneClassAssignOne p v dest n = .ok (d₁, n₁) →
            cloneClassTopSlots tl d₁ n₁ = .ok out →
            out.1.chain = dest.chain
            ∧ ∀ q, hasKeyB (JSlots.cons p v tl) q = false →
                out.1.own.lookup q = dest.own.lookup q := by
        intro d₁ n₁ ha hrest
        obtain ⟨s, hown, hchain⟩ := cloneClassAssignOne_inv p v dest n d₁ n₁ ha
        obtain ⟨hch, hfr⟩ := cloneClassTopSlots_frame tl d₁ n₁ out hrest
        refine ⟨by rw [hch, hchain], fun q hq => ?_⟩
        have hqp : ¬(p = q) := by
          intro hc
          simp [hasKeyB, JSlots.lookup, hc] at hq
        have hqtl : hasKeyB tl q = false := by
          simpa [hasKeyB, JSlots.lookup, hqp] using hq
        rw [hfr q hqtl, hown,
          JSlots.lookup_set_ne dest.own p q s (fun hc => hqp hc)]
      split at heq
      · split at heq
        · obtain ⟨hch, hfr⟩ := cloneClassTopSlots_frame tl dest n out heq
          refine ⟨hch, fun q hq => ?_⟩
          have hqp : ¬(p = q) := by
            intro hc
            simp [hasKeyB, JSlots.lookup, hc] at hq
          exact hfr q (by simpa [hasKeyB, JSlots.lookup, hqp] using hq)
        · cases ha : cloneClassAssignOne p v dest n with
          | error e => rw [ha] at heq; simp [Bind.bind, Except.bind] at heq
          | ok dn =>
              obtain ⟨d₁, n₁⟩ := dn
              rw [ha] at heq
              simp only [Bind.bind, Except.bind] at heq
              exact step d₁ n₁ ha heq
      · cases ha : cloneClassAssignOne p v dest n with
        | error e => rw [ha] at heq; simp [Bind.bind, Except.bind] at heq
        | ok dn =>
            obtain ⟨d₁, n₁⟩ := dn
            rw [ha] at heq
            simp only [Bind.bind, Except.bind] at heq
            exact step d₁ n₁ ha heq

theorem classCopyOkB_congr :
    ∀ (tl : JSlots) (dest dest₁ dest' : ClassObj),
      (∀ q, hasKeyB tl q = true →
        getPropDescC dest₁ q = getPropDescC dest q
        ∧ dest₁.own.lookup q = dest.own.lookup q) →
      classCopyOkB dest₁ dest' tl = true →
      classCopyOkB dest dest' tl = true
  | .nil, _, _, _ => fun _ _ => rfl
  | .cons k v tl, dest, dest₁, dest' => by
      intro hagree h
      have hk := hagree k (by simp [hasKeyB, JSlots.lookup])
      rw [classCopyOkB] at h ⊢
      simp only [Bool.and_eq_true] at h ⊢
      refine ⟨?_, classCopyOkB_congr tl dest dest₁ dest'
        (fun q hq => hagree q (by
          by_cases hqk : k = q
          · simp [hasKeyB, JSlots.lookup, hqk]
          · simpa [hasKeyB, JSlots.lookup, hqk] using hq)) h.2⟩
      rw [← hk.1, ← hk.2]
      exact h.1

/-- C8 amended core: for source slots holding directly assignable values,
cloneClass against a chain-carrying destination copies a slot exactly when
no descriptor for its name exists anywhere on the destination (own or
chain); every described slot — writable data, accessor with setter, or
read-only — is skipped, and the counter is untouched. -/
theorem cloneClassTopSlots_copy_iff :
    ∀ (slots : JSlots) (dest : ClassObj) (n : Nat) (dest' : ClassObj)
      (n' : Nat),
      allSimpleSlotsB slots = true →
      nodupKeysB slots = true →
      cloneClassTopSlots slots dest n = .ok (dest', n') →
      classCopyOkB dest dest' slots = true ∧ n' = n
  | .nil, dest, n, dest', n' => by
      intro _ _ heq
      cases heq
      exact ⟨rfl, rfl⟩
  | .cons p v tl, dest, n, dest', n' => by
      intro hsimp hnd heq
      have hsimp' := (by simpa [allSimpleSlotsB] using hsimp :
        isObjValB v = false ∧ allSimpleSlotsB tl = true)
      have hnd' := (by simpa [nodupKeysB] using hnd :
        hasKeyB tl p = false ∧ nodupKeysB tl = true)
      rw [cloneClassTopSlots] at heq
      split at heq
      · rename_i d hdsc
        rw [if_pos (cloneClassSkipB_vacuous d)] at heq
        obtain ⟨hcopy, hn⟩ :=
          cloneClassTopSlots_copy_iff tl dest n dest' n' hsimp'.2 hnd'.2 heq
        obtain ⟨hch, hfr⟩ := cloneClassTopSlots_frame tl dest n (dest', n') heq
        refine ⟨?_, hn⟩
        rw [classCopyOkB, hdsc]
        simp only [Bool.and_eq_true, beq_iff_eq]
        exact ⟨hfr p hnd'.1, hcopy⟩
      · rename_i hdsc
        have hassign : cloneClassAssignOne p v dest n
            = .ok ({ dest with own := dest.own.set p v }, n) := by
          cases v <;> first
            | rfl
            | simp [isObjValB] at hsimp'
        rw [hassign] at heq
        simp only [Bind.bind, Except.bind] at heq
        have hagree : ∀ q, hasKeyB tl q = true →
            getPropDescC { dest with own := dest.own.set p v } q
              = getPropDescC dest q
            ∧ ({ dest with own := dest.own.set p v } : ClassObj).own.lookup q
              = dest.own.lookup q := by
          intro q hq
          have hqp : q ≠ p := by
            intro hc
            rw [hc] at hq
            rw [hnd'.1] at hq
            cases hq
          constructor
          · simp only [getPropDescC]
            rw [show hasKeyB ((dest.own.set p v)) q = hasKeyB dest.own q from
              hasKeyB_set_ne dest.own p q v hqp]
          · exact JSlots.lookup_set_ne dest.own p q v
              (fun hc => hqp hc.symm)
        obtain ⟨hcopy, hn⟩ :=
          cloneClassTopSlots_copy_iff tl _ n dest' n' hsimp'.2 hnd'.2 heq
        obtain ⟨hch, hfr⟩ :=
          cloneClassTopSlots_frame tl _ n (dest', n') heq
        refine ⟨?_, hn⟩
        rw [classCopyOkB, hdsc]
        simp only [Bool.and_eq_true, beq_iff_eq]
        constructor
        · rw [hfr p hnd'.1]
          exact JSlots.lookup_set_self dest.own p v
        · exact classCopyOkB_congr tl dest _ dest' hagree hcopy

/-- C8 counterexample: a directly writable slot is NOT copied.  The
destination owns "a" as a plain writable data property (descriptor
\x7bwritable: true, set: undefined\x7d), the source carries "a" = 5; the claim
says the slot is copied, but cloneClass's test
`!def.writable || def.set === undefined` is true on it (as on every
descriptor, since no descriptor is both writable and setter-backed), so
the slot keeps its old value 1. -/
theorem cloneClass_writable_not_copied :
    getPropDescC ⟨.cons "a" (.num 1) .nil, []⟩ "a" = some (.data true)
    ∧ descWritableB (.data true) = true
    ∧ cloneClassTop (.obj 9 (.cons "a" (.num 5) .nil))
        ⟨.cons "a" (.num 1) .nil, []⟩ 0
      = .ok (⟨.cons "a" (.num 1) .nil, []⟩, 0)
    ∧ (JSlots.cons "a" (.num 1) .nil).lookup "a" ≠ some (.num 5) :=
  ⟨rfl, rfl, rfl, by simp [JSlots.lookup]⟩

/-- C8 amended: cloneClass copies a slot into the destination iff the
destination's property model yields no descriptor at all for that name;
the writable-or-setter-backed condition of the claim is vacuously
unsatisfiable, every found descriptor being skipped
(`cloneClassSkipB_vacuous`). -/
theorem cloneClass_copies_iff_undescribed (src : Nat) (slots : JSlots)
    (dest : ClassObj) (n : Nat) (dest' : ClassObj) (n' : Nat)
    (hsimp : allSimpleSlotsB slots = true)
    (hnd : nodupKeysB slots = true)
    (heq : cloneClassTop (.obj src slots) dest n = .ok (dest', n')) :
    (∀ d : Desc, cloneClassSkipB d = true)
    ∧ classCopyOkB dest dest' slots = true ∧ n' = n :=
  ⟨cloneClassSkipB_vacuous,
   cloneClassTopSlots_copy_iff slots dest n dest' n' hsimp hnd heq⟩

/-- C8 witness: destination owns writable "a" (kept, not overwritten) and
has no descriptor for "b" (copied from the source). -/
theorem cloneClass_copies_iff_undescribed_witness :
    allSimpleSlotsB (.cons "a" (.num 5) (.cons "b" (.num 7) .nil)) = true
    ∧ nodupKeysB (.cons "a" (.num 5) (.cons "b" (.num 7) .nil)) = true
    ∧ cloneClassTop
        (.obj 9 (.cons "a" (.num 5) (.cons "b" (.num 7) .nil)))
        ⟨.cons "a" (.num 1) .nil, []⟩ 4
      = .ok (⟨.cons "a" (.num 1) (.cons "b" (.num 7) .nil), []⟩, 4)
    ∧ ((∀ d : Desc, cloneClassSkipB d = true)
      ∧ classCopyOkB ⟨.cons "a" (.num 1) .nil, []⟩
          ⟨.cons "a" (.num 1) (.cons "b" (.num 7) .nil), []⟩
          (.cons "a" (.num 5) (.cons "b" (.num 7) .nil)) = true
      ∧ (4 : Nat) = 4) :=
  ⟨by decide, by decide, rfl,
   cloneClass_copies_iff_undescribed 9
     (.cons "a" (.num 5) (.cons "b" (.num 7) .nil))
     ⟨.cons "a" (.num 1) .nil, []⟩ 4
     ⟨.cons "a" (.num 1) (.cons "b" (.num 7) .nil), []⟩ 4
     (by decide) (by decide) rfl⟩

/-! ### Claim C7: changes returns none when nothing differs -/

theorem looseEqB_refl (v : JVal) : looseEqB v v = true := by
  cases v <;> simp [looseEqB]

theorem falsyB_not_objVal (v : JVal) (h : falsyB v = true) :
    isObjValB v = false := by
  cases v <;> simp_all [falsyB, isObjValB]

theorem changesSlots_skip_aligned :
    ∀ (part : JSlots) (o : JVal) (n : Nat) (res : Option (Nat × JSlots)),
      alignedSlotsB part o = true →
      changesSlots part o n res = .ok (res, n)
  | .nil, o, n, res => fun _ => rfl
  | .cons p v tl, o, n, res => by
      intro h
      rw [alignedSlotsB] at h
      cases hg : getProp o p with
      | error e => rw [hg] at h; simp at h
      | ok w =>
          rw [hg] at h
          simp only [Bool.and_eq_true, beq_iff_eq] at h
          obtain ⟨hw, htl⟩ := h
          subst hw
          rw [changesSlots_cons_eq, hg]
          simp only [Bind.bind, Except.bind, looseEqB_refl, if_true]
          exact changesSlots_skip_aligned tl o n res htl

theorem changesElems_skip_aligned :
    ∀ (part : JList) (i : Nat) (o : JVal) (n : Nat)
      (res : Option (Nat × JSlots)),
      alignedElemsB i part o = true →
      changesElems i part o n res = .ok (res, n)
  | .nil, i, o, n, res => fun _ => rfl
  | .cons v tl, i, o, n, res => by
      intro h
      rw [alignedElemsB] at h
      cases hg : getIdxProp o i with
      | error e => rw [hg] at h; simp at h
      | ok w =>
          rw [hg] at h
          simp only [Bool.and_eq_true, beq_iff_eq] at h
          obtain ⟨hw, htl⟩ := h
          subst hw
          rw [changesElems, hg]
          simp only [Bind.bind, Except.bind, looseEqB_refl, if_true]
          exact changesElems_skip_aligned tl (i + 1) o n res htl

theorem alignedSlots_of_sub :
    ∀ (part s : JSlots) (i : Nat),
      (∀ p v, part.lookup p = some v → s.lookup p = some v) →
      nodupKeysB part = true →
      alignedSlotsB part (.obj i s) = true
  | .nil, s, i => fun _ _ => rfl
  | .cons p v tl, s, i => by
      intro hsub hnd
      have hs : s.lookup p = some v := hsub p v (by simp [JSlots.lookup])
      have hnd' := (by simpa [nodupKeysB] using hnd :
        hasKeyB tl p = false ∧ nodupKeysB tl = true)
      have hsub' : ∀ q u, tl.lookup q = some u → s.lookup q = some u := by
        intro q u hq
        by_cases hqp : q = p
        · subst hqp
          rw [hasKeyB_false_lookup_none tl q hnd'.1] at hq
          cases hq
        · refine hsub q u ?_
          have hpq : p ≠ q := fun h => hqp h.symm
          simp [JSlots.lookup, hpq, hq]
      rw [alignedSlotsB]
      simp only [getProp, hs, Option.getD_some, beq_self_eq_true,
        Bool.true_and]
      exact alignedSlots_of_sub tl s i hsub' hnd'.2

theorem alignedElems_of_sub :
    ∀ (part full : JList) (a i : Nat),
      (∀ j v, part.get? j = some v → full.get? (i + j) = some v) →
      alignedElemsB i part (.arr a full) = true
  | .nil, full, a, i => fun _ => rfl
  | .cons v tl, full, a, i => by
      intro hsub
      have hv : full.get? i = some v := by
        have := hsub 0 v (by simp [JList.get?])
        simpa using this
      have hsub' : ∀ j u, tl.get? j = some u → full.get? (i + 1 + j) = some u := by
        intro j u hj
        have := hsub (j + 1) u (by simpa [JList.get?] using hj)
        have harith : i + (j + 1) = i + 1 + j := by omega
        rwa [harith] at this
      rw [alignedElemsB]
      simp only [getIdxProp, hv, Option.getD_some, beq_self_eq_true,
        Bool.true_and]
      exact alignedElems_of_sub tl full a (i + 1) hsub'

mutual

theorem changes_of_noChange (c o : JVal) (n : Nat)
    (h : noChangeB c o = true) : changes c o n = .ok (.null, n) :=
  match c with
  | .obj ci slots => by
      have hs := changesSlots_of_noChange slots o n none
        (by simpa [noChangeB] using h)
      simp [changes, hs, Bind.bind, Except.bind]
  | .arr ai elems => by
      have hs := changesElems_of_noChange 0 elems o n none
        (by simpa [noChangeB] using h)
      simp [changes, hs, Bind.bind, Except.bind]
  | .undef => rfl
  | .null => rfl
  | .bool _ => rfl
  | .num _ => rfl
  | .str _ => rfl
  | .func _ => rfl

theorem changesSlots_of_noChange (slots : JSlots) (o : JVal) (n : Nat)
    (res : Option (Nat × JSlots)) (h : noChangeSlotsB slots o = true) :
    changesSlots slots o n res = .ok (res, n) :=
  match slots with
  | .nil => rfl
  | .cons p v tl => by
      rw [noChangeSlotsB] at h
      cases hg : getProp o p with
      | error e => rw [hg] at h; simp at h
      | ok w =>
          rw [hg] at h
          simp only [Bool.and_eq_true, Bool.or_eq_true] at h
          obtain ⟨hcond, htl⟩ := h
          rw [changesSlots_cons_eq, hg]
          simp only [Bind.bind, Except.bind]
          by_cases h1 : looseEqB v w = true
          · simp only [h1, if_true]
            exact changesSlots_of_noChange tl o n res htl
          · by_cases h2 : falsyB v = true
            · have h3 : falsyB w = true := by
                rcases hcond with (hc | hc) | hc
                · exact absurd hc h1
                · exact hc.2
                · rw [falsyB_not_objVal v h2] at hc; simp at hc
              simp only [h1, if_false, h2, h3, if_true]
              exact changesSlots_of_noChange tl o n res htl
            · have h4 : isObjValB v = true ∧ isObjValB w = true
                  ∧ noChangeB v w = true := by
                rcases hcond with (hc | hc) | hc
                · exact absurd hc h1
                · exact absurd hc.1 h2
                · exact ⟨hc.1.1, hc.1.2, hc.2⟩
              have hrec := changes_of_noChange v w n h4.2.2
              simp only [h1, if_false, h2, h4.1, h4.2.1, if_true, hrec]
              exact changesSlots_of_noChange tl o n res htl

theorem changesElems_of_noChange (i : Nat) (elems : JList) (o : JVal)
    (n : Nat) (res : Option (Nat × JSlots))
    (h : noChangeElemsB i elems o = true) :
    changesElems i elems o n res = .ok (res, n) :=
  match elems with
  | .nil => rfl
  | .cons v tl => by
      rw [noChangeElemsB] at h
      cases hg : getIdxProp o i with
      | error e => rw [hg] at h; simp at h
      | ok w =>
          rw [hg] at h
          simp only [Bool.and_eq_true, Bool.or_eq_true] at h
          obtain ⟨hcond, htl⟩ := h
          rw [changesElems, hg]
          simp only [Bind.bind, Except.bind]
          by_cases h1 : looseEqB v w = true
          · simp only [h1, if_true]
            exact changesElems_of_noChange (i + 1) tl o n res htl
          · by_cases h2 : falsyB v = true
            · have h3 : falsyB w = true := by
                rcases hcond with (hc | hc) | hc
                · exact absurd hc h1
                · exact hc.2
                · rw [falsyB_not_objVal v h2] at hc; simp at hc
              simp only [h1, if_false, h2, h3, if_true]
              exact changesElems_of_noChange (i + 1) tl o n res htl
            · have h4 : isObjValB v = true ∧ isObjValB w = true
                  ∧ noChangeB v w = true := by
                rcases hcond with (hc | hc) | hc
                · exact absurd hc h1
                · exact absurd hc.1 h2
                · exact ⟨hc.1.1, hc.1.2, hc.2⟩
              have hrec := changes_of_noChange v w n h4.2.2
              simp only [h1, if_false, h2, h4.1, h4.2.1, if_true, hrec]
              exact changesElems_of_noChange (i + 1) tl o n res htl

end

/-- C7: changes reports nothing when nothing differs: changes(x, x) is
null for every well-formed x; more generally changes(candidate, original)
is null whenever every slot of the candidate is loosely equal to, or
both-falsy with, the corresponding original value, recursively for nested
aggregates (`noChangeB`); in particular
changes(\x7ba:0, b:false, c:\x7bd:1\x7d\x7d, \x7ba:"", b:0, c:\x7bd:1\x7d\x7d) is null. -/
theorem changes_none_when_no_difference :
    (∀ (x : JVal) (n : Nat), wfKeysB x = true →
      changes x x n = .ok (.null, n))
    ∧ (∀ (c o : JVal) (n : Nat), noChangeB c o = true →
      changes c o n = .ok (.null, n))
    ∧ changes
        (.obj 1 (.cons "a" (.num 0) (.cons "b" (.bool false)
          (.cons "c" (.obj 2 (.cons "d" (.num 1) .nil)) .nil))))
        (.obj 0 (.cons "a" (.str "") (.cons "b" (.num 0)
          (.cons "c" (.obj 3 (.cons "d" (.num 1) .nil)) .nil)))) 9
      = .ok (.null, 9) := by
  refine ⟨fun x n hwf => ?_, changes_of_noChange, rfl⟩
  match x with
  | .obj ci slots =>
      have hnd : nodupKeysB slots = true := by
        simpa [wfKeysB] using (by simpa [wfKeysB] using hwf :
          nodupKeysB slots = true ∧ wfKeysSlotsB slots = true).1
      have ha := alignedSlots_of_sub slots slots ci (fun _ _ h => h) hnd
      have hs := changesSlots_skip_aligned slots (.obj ci slots) n none ha
      simp [changes, hs, Bind.bind, Except.bind]
  | .arr ai elems =>
      have ha := alignedElems_of_sub elems elems ai 0 (fun j v h => by
        simpa using h)
      have hs := changesElems_skip_aligned elems 0 (.arr ai elems) n none ha
      simp [changes, hs, Bind.bind, Except.bind]
  | .undef => rfl
  | .null => rfl
  | .bool _ => rfl
  | .num _ => rfl
  | .str _ => rfl
  | .func _ => rfl

/-- C7 witness: concrete applications of both universal halves of
`changes_none_when_no_difference`. -/
theorem changes_none_when_no_difference_witness :
    wfKeysB (.obj 4 (.cons "a" (.num 2)
        (.cons "c" (.obj 5 (.cons "d" (.num 1) .nil)) .nil))) = true
    ∧ changes
        (.obj 4 (.cons "a" (.num 2)
          (.cons "c" (.obj 5 (.cons "d" (.num 1) .nil)) .nil)))
        (.obj 4 (.cons "a" (.num 2)
          (.cons "c" (.obj 5 (.cons "d" (.num 1) .nil)) .nil))) 11
      = .ok (.null, 11)
    ∧ noChangeB (.obj 1 (.cons "a" (.num 0) .nil))
        (.obj 0 (.cons "a" (.str "") .nil)) = true
    ∧ changes (.obj 1 (.cons "a" (.num 0) .nil))
        (.obj 0 (.cons "a" (.str "") .nil)) 3 = .ok (.null, 3) :=
  ⟨by decide,
   changes_none_when_no_difference.1
     (.obj 4 (.cons "a" (.num 2)
       (.cons "c" (.obj 5 (.cons "d" (.num 1) .nil)) .nil))) 11 (by decide),
   by decide,
   changes_none_when_no_difference.2.1
     (.obj 1 (.cons "a" (.num 0) .nil))
     (.obj 0 (.cons "a" (.str "") .nil)) 3 (by decide)⟩

/-! ### Claim C5: mergeSafe never overwrites, fills with fresh clones -/

theorem wfKeysSlotsB_lookup (s : JSlots) (p : String) (v : JVal)
    (hwf : wfKeysSlotsB s = true) (hlk : s.lookup p = some v) :
    wfKeysB v = true :=
  match s with
  | .nil => by simp [JSlots.lookup] at hlk
  | .cons k w tl => by
      have hwf' := (by simpa [wfKeysSlotsB] using hwf :
        wfKeysB w = true ∧ wfKeysSlotsB tl = true)
      by_cases hk : k = p
      · have : w = v := by simpa [JSlots.lookup, hk] using hlk
        subst this
        exact hwf'.1
      · exact wfKeysSlotsB_lookup tl p v hwf'.2
          (by simpa [JSlots.lookup, hk] using hlk)

theorem collectIdsSlots_lookup (s : JSlots) (p : String) (v : JVal)
    (hlk : s.lookup p = some v) :
    ∀ k, k ∈ collectIds v → k ∈ collectIdsSlots s :=
  match s with
  | .nil => by simp [JSlots.lookup] at hlk
  | .cons k' w tl => by
      intro k hk
      by_cases hkp : k' = p
      · have : w = v := by simpa [JSlots.lookup, hkp] using hlk
        subst this
        simp [collectIdsSlots, hk]
      · have := collectIdsSlots_lookup tl p v
          (by simpa [JSlots.lookup, hkp] using hlk) k hk
        simp [collectIdsSlots, this]

theorem collectIdsSlots_set (s : JSlots) (p : String) (v : JVal) :
    ∀ k, k ∈ collectIdsSlots (s.set p v) →
      k ∈ collectIdsSlots s ∨ k ∈ collectIds v :=
  match s with
  | .nil => by
      intro k hk
      simp only [JSlots.set, collectIdsSlots, List.append_nil] at hk
      exact Or.inr (by simpa using hk)
  | .cons k' w tl => by
      intro k hk
      by_cases hkp : k' = p
      · simp only [JSlots.set, hkp, if_pos, collectIdsSlots,
          List.mem_append] at hk
        rcases hk with hk | hk
        · exact Or.inr hk
        · exact Or.inl (by simp [collectIdsSlots, hk])
      · simp only [JSlots.set, hkp, if_neg, not_false_iff,
          collectIdsSlots, List.mem_append] at hk
        rcases hk with hk | hk
        · exact Or.inl (by simp [collectIdsSlots, hk])
        · rcases collectIdsSlots_set tl p v k hk with h | h
          · exact Or.inl (by simp [collectIdsSlots, h])
          · exact Or.inr h

theorem nodupKeysB_set (s : JSlots) (p : String) (v : JVal)
    (hnd : nodupKeysB s = true) : nodupKeysB (s.set p v) = true :=
  match s with
  | .nil => by simp [JSlots.set, nodupKeysB, hasKeyB, JSlots.lookup]
  | .cons k w tl => by
      have hnd' := (by simpa [nodupKeysB] using hnd :
        hasKeyB tl k = false ∧ nodupKeysB tl = true)
      by_cases hkp : k = p
      · subst hkp
        simp [JSlots.set, nodupKeysB, hnd'.1, hnd'.2]
      · simp [JSlots.set, hkp, nodupKeysB,
          hasKeyB_set_ne tl p k v (fun hc => hkp hc), hnd'.1,
          nodupKeysB_set tl p v hnd'.2]

theorem wfKeysSlotsB_set (s : JSlots) (p : String) (v : JVal)
    (hwf : wfKeysSlotsB s = true) (hv : wfKeysB v = true) :
    wfKeysSlotsB (s.set p v) = true :=
  match s with
  | .nil => by simp [JSlots.set, wfKeysSlotsB, hv]
  | .cons k w tl => by
      have hwf' := (by simpa [wfKeysSlotsB] using hwf :
        wfKeysB w = true ∧ wfKeysSlotsB tl = true)
      by_cases hkp : k = p
      · simp [JSlots.set, hkp, wfKeysSlotsB, hv, hwf'.2]
      · simp [JSlots.set, hkp, wfKeysSlotsB, hwf'.1,
          wfKeysSlotsB_set tl p v hwf'.2 hv]

theorem getD_undef_inv (o : Option JVal) (h : o.getD .undef = .undef) :
    o = none ∨ o = some .undef := by
  cases o with
  | none => exact Or.inl rfl
  | some v => exact Or.inr (by simpa using h)

mutual

theorem preservedSlotB_refl (v : JVal) (h : wfKeysB v = true) :
    preservedSlotB v v = true :=
  match v with
  | .undef => rfl
  | .null => rfl
  | .bool b => by simp [preservedSlotB]
  | .num m => by simp [preservedSlotB]
  | .str t => by simp [preservedSlotB]
  | .func f => by simp [preservedSlotB]
  | .arr i es => by simp [preservedSlotB]
  | .obj i ss => by
      have h' := (by simpa [wfKeysB] using h :
        nodupKeysB ss = true ∧ wfKeysSlotsB ss = true)
      simp only [preservedSlotB, beq_self_eq_true, Bool.true_and]
      exact preservedSlotsB_refl_aux ss ss (fun _ _ hq => hq) h'.1 h'.2

theorem preservedSlotsB_refl_aux :
    ∀ (part s : JSlots),
      (∀ k u, part.lookup k = some u → s.lookup k = some u) →
      nodupKeysB part = true →
      wfKeysSlotsB part = true →
      preservedSlotsB part s = true
  | .nil, s => fun _ _ _ => rfl
  | .cons k u tl, s => by
      intro hsub hnd hwf
      have hnd' := (by simpa [nodupKeysB] using hnd :
        hasKeyB tl k = false ∧ nodupKeysB tl = true)
      have hwf' := (by simpa [wfKeysSlotsB] using hwf :
        wfKeysB u = true ∧ wfKeysSlotsB tl = true)
      have hs : s.lookup k = some u := hsub k u (by simp [JSlots.lookup])
      have hsub' : ∀ q w, tl.lookup q = some w → s.lookup q = some w := by
        intro q w hq
        by_cases hqk : q = k
        · subst hqk
          rw [hasKeyB_false_lookup_none tl q hnd'.1] at hq
          cases hq
        · refine hsub q w ?_
          have hkq : ¬(k = q) := fun h => hqk h.symm
          simp [JSlots.lookup, hkq, hq]
      rw [preservedSlotsB, hs]
      simp only [Bool.and_eq_true]
      exact ⟨preservedSlotB_refl u hwf'.1,
        preservedSlotsB_refl_aux tl s hsub' hnd'.2 hwf'.2⟩

end

theorem preservedSlots_lookup :
    ∀ (sb sc : JSlots) (k : String) (vb : JVal),
      preservedSlotsB sb sc = true →
      sb.lookup k = some vb →
      ∃ vc, sc.lookup k = some vc ∧ preservedSlotB vb vc = true
  | .nil, sc, k, vb => by
      intro _ hlk
      simp [JSlots.lookup] at hlk
  | .cons k' v' tl, sc, k, vb => by
      intro hp hlk
      rw [preservedSlotsB] at hp
      simp only [Bool.and_eq_true] at hp
      by_cases hk : k' = k
      · subst hk
        have hv : v' = vb := by simpa [JSlots.lookup] using hlk
        subst hv
        cases hc : sc.lookup k' with
        | none => rw [hc] at hp; simp at hp
        | some vc =>
            rw [hc] at hp
            exact ⟨vc, rfl, hp.1⟩
      · exact preservedSlots_lookup tl sc k vb hp.2
          (by simpa [JSlots.lookup, hk] using hlk)

mutual

theorem preservedSlotB_trans (a b c : JVal)
    (hab : preservedSlotB a b = true) (hbc : preservedSlotB b c = true) :
    preservedSlotB a c = true :=
  match a with
  | .undef => rfl
  | .obj ia sa => by
      cases b with
      | obj ib sb =>
          rw [preservedSlotB] at hab
          simp only [Bool.and_eq_true, beq_iff_eq] at hab
          cases c with
          | obj ic sc =>
              rw [preservedSlotB] at hbc
              simp only [Bool.and_eq_true, beq_iff_eq] at hbc
              rw [preservedSlotB]
              simp only [Bool.and_eq_true, beq_iff_eq]
              exact ⟨hab.1.trans hbc.1,
                preservedSlotsB_trans sa sb sc hab.2 hbc.2⟩
          | undef => simp [preservedSlotB] at hbc
          | null => simp [preservedSlotB] at hbc
          | bool x => simp [preservedSlotB] at hbc
          | num x => simp [preservedSlotB] at hbc
          | str x => simp [preservedSlotB] at hbc
          | func x => simp [preservedSlotB] at hbc
          | arr x y => simp [preservedSlotB] at hbc
      | undef => simp [preservedSlotB] at hab
      | null => simp [preservedSlotB] at hab
      | bool x => simp [preservedSlotB] at hab
      | num x => simp [preservedSlotB] at hab
      | str x => simp [preservedSlotB] at hab
      | func x => simp [preservedSlotB] at hab
      | arr x y => simp [preservedSlotB] at hab
  | .null => by
      have hb : b = .null := by
        cases b <;> simp_all [preservedSlotB]
      subst hb
      have hc : c = .null := by
        cases c <;> simp_all [preservedSlotB]
      subst hc
      rfl
  | .bool x => by
      have hb : b = .bool x := by
        cases b <;> simp_all [preservedSlotB]
      subst hb
      have hc : c = .bool x := by
        cases c <;> simp_all [preservedSlotB]
      subst hc
      simp [preservedSlotB]
  | .num x => by
      have hb : b = .num x := by
        cases b <;> simp_all [preservedSlotB]
      subst hb
      have hc : c = .num x := by
        cases c <;> simp_all [preservedSlotB]
      subst hc
      simp [preservedSlotB]
  | .str x => by
      have hb : b = .str x := by
        cases b <;> simp_all [preservedSlotB]
      subst hb
      have hc : c = .str x := by
        cases c <;> simp_all [preservedSlotB]
      subst hc
      simp [preservedSlotB]
  | .func x => by
      have hb : b = .func x := by
        cases b <;> simp_all [preservedSlotB]
      subst hb
      have hc : c = .func x := by
        cases c <;> simp_all [preservedSlotB]
      subst hc
      simp [preservedSlotB]
  | .arr x y => by
      have hb : b = .arr x y := by
        cases b <;> simp_all [preservedSlotB]
      subst hb
      have hc : c = .arr x y := by
        cases c <;> simp_all [preservedSlotB]
      subst hc
      simp [preservedSlotB]

theorem preservedSlotsB_trans :
    ∀ (sa sb sc : JSlots),
      preservedSlotsB sa sb = true → preservedSlotsB sb sc = true →
      preservedSlotsB sa sc = true
  | .nil, _, _ => fun _ _ => rfl
  | .cons k v tl, sb, sc => by
      intro hab hbc
      rw [preservedSlotsB] at hab ⊢
      simp only [Bool.and_eq_true] at hab ⊢
      refine ⟨?_, preservedSlotsB_trans tl sb sc hab.2 hbc⟩
      cases hlb : sb.lookup k with
      | none => rw [hlb] at hab; simp at hab
      | some vb =>
          rw [hlb] at hab
          obtain ⟨vc, hlc, hpc⟩ := preservedSlots_lookup sb sc k vb hbc hlb
          rw [hlc]
          exact preservedSlotB_trans v vb vc hab.1 hpc

end

theorem preservedSlots_set_aux :
    ∀ (part s : JSlots) (p : String) (c : JVal),
      nodupKeysB part = true → wfKeysSlotsB part = true →
      (∀ k u, part.lookup k = some u →
        (k = p ∧ preservedSlotB u c = true)
        ∨ (k ≠ p ∧ s.lookup k = some u)) →
      preservedSlotsB part (s.set p c) = true
  | .nil, s, p, c => fun _ _ _ => rfl
  | .cons k v tl, s, p, c => by
      intro hnd hwf hsub
      have hnd' := (by simpa [nodupKeysB] using hnd :
        hasKeyB tl k = false ∧ nodupKeysB tl = true)
      have hwf' := (by simpa [wfKeysSlotsB] using hwf :
        wfKeysB v = true ∧ wfKeysSlotsB tl = true)
      have hhead := hsub k v (by simp [JSlots.lookup])
      have hsub' : ∀ q u, tl.lookup q = some u →
          (q = p ∧ preservedSlotB u c = true)
          ∨ (q ≠ p ∧ s.lookup q = some u) := by
        intro q u hq
        refine hsub q u ?_
        have hqk : ¬(k = q) := by
          intro hc
          rw [← hc] at hq
          rw [hasKeyB_false_lookup_none tl k hnd'.1] at hq
          cases hq
        simp [JSlots.lookup, hqk, hq]
      rw [preservedSlotsB]
      simp only [Bool.and_eq_true]
      refine ⟨?_, preservedSlots_set_aux tl s p c hnd'.2 hwf'.2 hsub'⟩
      rcases hhead with ⟨hkp, hpc⟩ | ⟨hkp, hks⟩
      · subst hkp
        rw [JSlots.lookup_set_self s k c]
        exact hpc
      · rw [JSlots.lookup_set_ne s p k c (fun hc => hkp hc.symm), hks]
        exact preservedSlotB_refl v hwf'.1

theorem preserved_set_fill (s : JSlots) (p : String) (c : JVal)
    (hnd : nodupKeysB s = true) (hwf : wfKeysSlotsB s = true)
    (hfree : s.lookup p = none ∨ s.lookup p = some .undef) :
    preservedSlotsB s (s.set p c) = true := by
  refine preservedSlots_set_aux s s p c hnd hwf ?_
  intro k u hk
  by_cases hkp : k = p
  · subst hkp
    rcases hfree with h | h
    · rw [h] at hk; cases hk
    · rw [h] at hk
      have : u = .undef := by simpa using hk.symm
      subst this
      exact Or.inl ⟨rfl, rfl⟩
  · exact Or.inr ⟨hkp, hk⟩

theorem preserved_set_rec (s : JSlots) (p : String) (v₀ m : JVal)
    (hnd : nodupKeysB s = true) (hwf : wfKeysSlotsB s = true)
    (hlk : s.lookup p = some v₀) (hpm : preservedSlotB v₀ m = true) :
    preservedSlotsB s (s.set p m) = true := by
  refine preservedSlots_set_aux s s p m hnd hwf ?_
  intro k u hk
  by_cases hkp : k = p
  · subst hkp
    rw [hlk] at hk
    have : u = v₀ := by simpa using hk.symm
    subst this
    exact Or.inl ⟨rfl, hpm⟩
  · exact Or.inr ⟨hkp, hk⟩

theorem getD_eq_some_of_ne_undef (o : Option JVal) (v : JVal)
    (h : o.getD .undef = v) (hv : v ≠ .undef) : o = some v := by
  cases o with
  | none => exact absurd h.symm hv
  | some w => simpa using h

theorem mergeSafeSlots_spec :
    ∀ (slots : JSlots) (i : Nat) (s : JSlots) (n : Nat) (out : JVal × Nat),
      mergeSafeSlots (.obj i s) slots n = .ok out →
      wfKeysB (.obj i s) = true →
      wfKeysSlotsB slots = true →
      hasCloneCapSlotsB slots = false →
      ∃ s', out.1 = .obj i s'
        ∧ preservedSlotsB s s' = true
        ∧ wfKeysB (.obj i s') = true
        ∧ n ≤ out.2
        ∧ (∀ k, k ∈ collectIdsSlots s' → k ∈ collectIdsSlots s ∨ n ≤ k)
  | .nil, i, s, n, out => by
      intro heq hwfd _ _
      cases heq
      exact ⟨s, rfl, preservedSlotsB_refl_aux s s (fun _ _ h => h)
        (by simpa [wfKeysB] using hwfd :
          nodupKeysB s = true ∧ wfKeysSlotsB s = true).1
        (by simpa [wfKeysB] using hwfd :
          nodupKeysB s = true ∧ wfKeysSlotsB s = true).2,
        hwfd, le_refl n, fun k hk => Or.inl hk⟩
  | .cons p srcSub tl, i, s, n, out => by
      intro heq hwfd hwsrc hcap
      have hwfd' := (by simpa [wfKeysB] using hwfd :
        nodupKeysB s = true ∧ wfKeysSlotsB s = true)
      have hwsrc' := (by simpa [wfKeysSlotsB] using hwsrc :
        wfKeysB srcSub = true ∧ wfKeysSlotsB tl = true)
      have hcap' : hasCloneCapB srcSub = false
          ∧ hasCloneCapSlotsB tl = false := by
        simpa [hasCloneCapSlotsB, Bool.or_eq_false_iff] using hcap
      simp only [mergeSafeSlots, getProp, Bind.bind, Except.bind] at heq
      cases hd : (s.lookup p).getD .undef with
      | undef =>
          rw [hd] at heq
          have hfree := getD_undef_inv (s.lookup p) hd
          have fillSimple : ∀ (c : JVal), isObjValB c = false →
              mergeSafeSlots (.obj i (s.set p c)) tl n = .ok out →
              ∃ s', out.1 = .obj i s'
                ∧ preservedSlotsB s s' = true
                ∧ wfKeysB (.obj i s') = true
                ∧ n ≤ out.2
                ∧ (∀ k, k ∈ collectIdsSlots s' →
                    k ∈ collectIdsSlots s ∨ n ≤ k) := by
            intro c hc heq2
            have hwfc : wfKeysB c = true := wfKeysB_prim c hc
            have hwf₁ : wfKeysB (.obj i (s.set p c)) = true := by
              simp [wfKeysB, nodupKeysB_set s p _ hwfd'.1,
                wfKeysSlotsB_set s p _ hwfd'.2 hwfc]
            obtain ⟨s₂, hout, hpres₂, hwf₂, hle₂, hids₂⟩ :=
              mergeSafeSlots_spec tl i (s.set p c) n out heq2
                hwf₁ hwsrc'.2 hcap'.2
            refine ⟨s₂, hout, ?_, hwf₂, hle₂, ?_⟩
            · exact preservedSlotsB_trans s _ s₂
                (preserved_set_fill s p _ hwfd'.1 hwfd'.2 hfree) hpres₂
            · intro k hk
              rcases hids₂ k hk with hk2 | hk2
              · rcases collectIdsSlots_set s p c k hk2 with h3 | h3
                · exact Or.inl h3
                · rw [collectIds_prim c hc] at h3
                  cases h3
              · exact Or.inr hk2
          cases srcSub with
          | arr oaid oelems =>
              obtain ⟨nl, n₁, hcl, hse₁, hwfl₁, hle₁, hids₁⟩ :=
                cloneElems_spec oelems n JList.nil (n + 1)
                  (by simpa [wfKeysB] using hwsrc'.1)
                  (by simpa [hasCloneCapB] using hcap'.1)
              rw [show JList.nil.length = 0 from rfl] at hcl
              rw [show JList.append .nil nl = nl from rfl] at hcl
              simp only [isObjectTypeB, isArrB, Bool.and_true, Bool.true_and,
                if_true, clone] at heq
              rw [hcl] at heq
              simp only [Bind.bind, Except.bind, setProp] at heq
              have hwfc : wfKeysB (.arr n nl) = true := by
                simpa [wfKeysB] using hwfl₁
              have hwf₁ : wfKeysB (.obj i (s.set p (.arr n nl))) = true := by
                simp [wfKeysB, nodupKeysB_set s p _ hwfd'.1,
                  wfKeysSlotsB_set s p _ hwfd'.2 hwfc]
              obtain ⟨s₂, hout, hpres₂, hwf₂, hle₂, hids₂⟩ :=
                mergeSafeSlots_spec tl i (s.set p (.arr n nl)) n₁ out heq
                  hwf₁ hwsrc'.2 hcap'.2
              refine ⟨s₂, hout, ?_, hwf₂, by omega, ?_⟩
              · exact preservedSlotsB_trans s _ s₂
                  (preserved_set_fill s p _ hwfd'.1 hwfd'.2 hfree) hpres₂
              · intro k hk
                rcases hids₂ k hk with hk2 | hk2
                · rcases collectIdsSlots_set s p (.arr n nl) k hk2 with
                    h3 | h3
                  · exact Or.inl h3
                  · simp only [collectIds, List.mem_cons] at h3
                    rcases h3 with h3 | h3
                    · omega
                    · simp only [List.all_eq_true, decide_eq_true_eq]
                        at hids₁
                      have := hids₁ k h3
                      omega
                · omega
          | obj osj oss =>
              have hwfo := (by simpa [wfKeysB] using hwsrc'.1 :
                nodupKeysB oss = true ∧ wfKeysSlotsB oss = true)
              have hcapo : (match oss.lookup "clone" with
                  | some (.func _) => true
                  | _ => false) = false
                  ∧ hasCloneCapSlotsB oss = false := by
                simpa [hasCloneCapB, Bool.or_eq_false_iff] using hcap'.1
              obtain ⟨nso, n₁, hcl, hkeys₁, hse₁, hwfl₁, hle₁, hids₁⟩ :=
                cloneSlots_spec oss n JSlots.nil (n + 1) hwfo.1 hwfo.2
                  hcapo.2 (keysDisjointB_nil oss)
              rw [show JSlots.append .nil nso = nso from rfl] at hcl
              simp only [isObjectTypeB, isArrB, Bool.and_true, Bool.true_and,
                if_true, Bool.false_eq_true, if_false, clone] at heq
              rw [hcl] at heq
              simp only [Bind.bind, Except.bind, setProp] at heq
              have hwfc : wfKeysB (.obj n nso) = true := by
                simp [wfKeysB, hwfl₁,
                  nodupKeysB_of_keys_eq oss nso hkeys₁.symm hwfo.1]
              have hwf₁ : wfKeysB (.obj i (s.set p (.obj n nso))) = true := by
                simp [wfKeysB, nodupKeysB_set s p _ hwfd'.1,
                  wfKeysSlotsB_set s p _ hwfd'.2 hwfc]
              obtain ⟨s₂, hout, hpres₂, hwf₂, hle₂, hids₂⟩ :=
                mergeSafeSlots_spec tl i (s.set p (.obj n nso)) n₁ out heq
                  hwf₁ hwsrc'.2 hcap'.2
              refine ⟨s₂, hout, ?_, hwf₂, by omega, ?_⟩
              · exact preservedSlotsB_trans s _ s₂
                  (preserved_set_fill s p _ hwfd'.1 hwfd'.2 hfree) hpres₂
              · intro k hk
                rcases hids₂ k hk with hk2 | hk2
                · rcases collectIdsSlots_set s p (.obj n nso) k hk2 with
                    h3 | h3
                  · exact Or.inl h3
                  · simp only [collectIds, List.mem_cons] at h3
                    rcases h3 with h3 | h3
                    · omega
                    · simp only [List.all_eq_true, decide_eq_true_eq]
                        at hids₁
                      have := hids₁ k h3
                      omega
                · omega
          | undef =>
              simp only [isObjectTypeB, Bool.and_false, if_false,
                Bool.false_eq_true, setProp, Bind.bind, Except.bind] at heq
              exact fillSimple .undef rfl heq
          | null =>
              simp only [isObjectTypeB, Bool.false_and, if_false,
                Bool.false_eq_true, setProp, Bind.bind, Except.bind] at heq
              exact fillSimple .null rfl heq
          | bool b =>
              simp only [isObjectTypeB, Bool.and_false, if_false,
                Bool.false_eq_true, setProp, Bind.bind, Except.bind] at heq
              exact fillSimple (.bool b) rfl heq
          | num m =>
              simp only [isObjectTypeB, Bool.and_false, if_false,
                Bool.false_eq_true, setProp, Bind.bind, Except.bind] at heq
              exact fillSimple (.num m) rfl heq
          | str t =>
              simp only [isObjectTypeB, Bool.and_false, if_false,
                Bool.false_eq_true, setProp, Bind.bind, Except.bind] at heq
              exact fillSimple (.str t) rfl heq
          | func f =>
              simp only [isObjectTypeB, Bool.and_false, if_false,
                Bool.false_eq_true, setProp, Bind.bind, Except.bind] at heq
              exact fillSimple (.func f) rfl heq
      | null =>
          rw [hd] at heq
          exact mergeSafeSlots_spec tl i s n out heq hwfd hwsrc'.2 hcap'.2
      | bool b =>
          rw [hd] at heq
          simp only [isObjectTypeB, Bool.and_false, Bool.false_and,
            Bool.and_true, Bool.false_eq_true, if_false] at heq
          exact mergeSafeSlots_spec tl i s n out heq hwfd hwsrc'.2 hcap'.2
      | num m =>
          rw [hd] at heq
          simp only [isObjectTypeB, Bool.and_false, Bool.false_and,
            Bool.and_true, Bool.false_eq_true, if_false] at heq
          exact mergeSafeSlots_spec tl i s n out heq hwfd hwsrc'.2 hcap'.2
      | str t =>
          rw [hd] at heq
          simp only [isObjectTypeB, Bool.and_false, Bool.false_and,
            Bool.and_true, Bool.false_eq_true, if_false] at heq
          exact mergeSafeSlots_spec tl i s n out heq hwfd hwsrc'.2 hcap'.2
      | func f =>
          rw [hd] at heq
          simp only [isObjectTypeB, Bool.and_false, Bool.false_and,
            Bool.and_true, Bool.false_eq_true, if_false] at heq
          exact mergeSafeSlots_spec tl i s n out heq hwfd hwsrc'.2 hcap'.2
      | arr di des =>
          rw [hd] at heq
          simp only [isArrB, Bool.not_true, Bool.false_and, Bool.and_false,
            Bool.false_eq_true, if_false, ite_self] at heq
          exact mergeSafeSlots_spec tl i s n out heq hwfd hwsrc'.2 hcap'.2
      | obj di ds =>
          rw [hd] at heq
          have hlkp : s.lookup p = some (.obj di ds) :=
            getD_eq_some_of_ne_undef (s.lookup p) _ hd (by simp)
          cases srcSub with
          | obj sj ss =>
              simp only [falsyB, isObjectTypeB, isArrB, Bool.not_false,
                Bool.true_and, Bool.and_true, Bool.not_true, if_true,
                Bool.and_self, mergeSafe] at heq
              cases hms : mergeSafeSlots (.obj di ds) ss n with
              | error e =>
                  rw [hms] at heq
                  simp [Bind.bind, Except.bind] at heq
              | ok mn =>
                  obtain ⟨m, n₁⟩ := mn
                  rw [hms] at heq
                  simp only [Bind.bind, Except.bind] at heq
                  have hwfds : wfKeysB (.obj di ds) = true :=
                    wfKeysSlotsB_lookup s p _ hwfd'.2 hlkp
                  have hwfss := (by simpa [wfKeysB] using hwsrc'.1 :
                    nodupKeysB ss = true ∧ wfKeysSlotsB ss = true)
                  have hcapss : hasCloneCapSlotsB ss = false := by
                    have := (by simpa [hasCloneCapB, Bool.or_eq_false_iff]
                      using hcap'.1 :
                      (match ss.lookup "clone" with
                        | some (.func _) => true
                        | _ => false) = false
                      ∧ hasCloneCapSlotsB ss = false)
                    exact this.2
                  obtain ⟨ds', hm1, hpresds, hwfds', hle₁, hidsds⟩ :=
                    mergeSafeSlots_spec ss di ds n (m, n₁) hms hwfds
                      hwfss.2 hcapss
                  simp only at hm1
                  subst hm1
                  simp only [setProp] at heq
                  have hwf₁ : wfKeysB (.obj i (s.set p (.obj di ds'))) = true := by
                    simp [wfKeysB, nodupKeysB_set s p _ hwfd'.1,
                      wfKeysSlotsB_set s p _ hwfd'.2 hwfds']
                  obtain ⟨s₂, hout, hpres₂, hwf₂, hle₂, hids₂⟩ :=
                    mergeSafeSlots_spec tl i (s.set p (.obj di ds')) n₁ out
                      heq hwf₁ hwsrc'.2 hcap'.2
                  refine ⟨s₂, hout, ?_, hwf₂, by omega, ?_⟩
                  · refine preservedSlotsB_trans s _ s₂ ?_ hpres₂
                    refine preserved_set_rec s p (.obj di ds) (.obj di ds')
                      hwfd'.1 hwfd'.2 hlkp ?_
                    simp [preservedSlotB, hpresds]
                  · intro k hk
                    rcases hids₂ k hk with hk2 | hk2
                    · rcases collectIdsSlots_set s p (.obj di ds') k hk2 with
                        h3 | h3
                      · exact Or.inl h3
                      · simp only [collectIds, List.mem_cons] at h3
                        rcases h3 with h3 | h3
                        · subst h3
                          refine Or.inl (collectIdsSlots_lookup s p _ hlkp k ?_)
                          simp [collectIds]
                        · rcases hidsds k h3 with h4 | h4
                          · refine Or.inl
                              (collectIdsSlots_lookup s p _ hlkp k ?_)
                            simp [collectIds, h4]
                          · omega
                    · omega
          | undef =>
              simp only [falsyB, Bool.not_true, Bool.false_and,
                Bool.false_eq_true, if_false] at heq
              exact mergeSafeSlots_spec tl i s n out heq hwfd hwsrc'.2 hcap'.2
          | null =>
              simp only [falsyB, Bool.not_true, Bool.false_and,
                Bool.false_eq_true, if_false] at heq
              exact mergeSafeSlots_spec tl i s n out heq hwfd hwsrc'.2 hcap'.2
          | bool b =>
              simp only [isObjectTypeB, Bool.and_false, Bool.false_eq_true,
                if_false] at heq
              exact mergeSafeSlots_spec tl i s n out heq hwfd hwsrc'.2 hcap'.2
          | num m2 =>
              simp only [isObjectTypeB, Bool.and_false, Bool.false_eq_true,
                if_false] at heq
              exact mergeSafeSlots_spec tl i s n out heq hwfd hwsrc'.2 hcap'.2
          | str t =>
              simp only [isObjectTypeB, Bool.and_false, Bool.false_eq_true,
                if_false] at heq
              exact mergeSafeSlots_spec tl i s n out heq hwfd hwsrc'.2 hcap'.2
          | func f =>
              simp only [isObjectTypeB, Bool.and_false, Bool.false_eq_true,
                if_false] at heq
              exact mergeSafeSlots_spec tl i s n out heq hwfd hwsrc'.2 hcap'.2
          | arr sj sl =>
              simp only [isArrB, Bool.not_true, Bool.and_false,
                Bool.false_and, Bool.false_eq_true, if_false,
                ite_self] at heq
              exact mergeSafeSlots_spec tl i s n out heq hwfd hwsrc'.2 hcap'.2

/-- C5: mergeSafe never replaces an existing slot value: every slot of the
destination (at any depth) whose pre-call value is defined keeps it — null
slots are skipped entirely, scalars, functions and arrays survive exactly,
object slots keep their reference (identity tag) and are themselves
preserved recursively — only undefined/absent slots are filled
(`preservedB`); aggregate subtrees newly introduced from src are deep
clones sharing no structure with src (identity-tag disjointness is
maintained); and mergeSafe(\x7ba:1\x7d, \x7ba:2, b:3\x7d) leaves dest as \x7ba:1, b:3\x7d. -/
theorem mergeSafe_never_overwrites :
    (∀ (di : Nat) (ds : JSlots) (sj : Nat) (ss : JSlots) (n : Nat)
        (d' : JVal) (n' : Nat),
      wfKeysB (.obj di ds) = true →
      wfKeysB (.obj sj ss) = true →
      hasCloneCapB (.obj sj ss) = false →
      idsBelowB (.obj sj ss) n = true →
      idsDisjointB (.obj di ds) (.obj sj ss) = true →
      mergeSafe (.obj di ds) (.obj sj ss) n = .ok (d', n') →
      preservedB (.obj di ds) d' = true
      ∧ idsDisjointB d' (.obj sj ss) = true)
    ∧ mergeSafe (.obj 0 (.cons "a" (.num 1) .nil))
        (.obj 1 (.cons "a" (.num 2) (.cons "b" (.num 3) .nil))) 10
      = .ok (.obj 0 (.cons "a" (.num 1) (.cons "b" (.num 3) .nil)), 10) := by
  refine ⟨?_, rfl⟩
  intro di ds sj ss n d' n' hwfd hwfs hcap hbelow hdisj heq
  have hwfss := (by simpa [wfKeysB] using hwfs :
    nodupKeysB ss = true ∧ wfKeysSlotsB ss = true)
  have hcapss : hasCloneCapSlotsB ss = false := by
    have := (by simpa [hasCloneCapB, Bool.or_eq_false_iff] using hcap :
      (match ss.lookup "clone" with
        | some (.func _) => true
        | _ => false) = false ∧ hasCloneCapSlotsB ss = false)
    exact this.2
  have heq' : mergeSafeSlots (.obj di ds) ss n = .ok (d', n') := by
    simpa [mergeSafe] using heq
  obtain ⟨s', hout, hpres, hwf', hle, hids⟩ :=
    mergeSafeSlots_spec ss di ds n (d', n') heq' hwfd hwfss.2 hcapss
  simp only at hout
  subst hout
  constructor
  · simp [preservedB, hpres]
  · simp only [idsBelowB, List.all_eq_true, decide_eq_true_eq] at hbelow
    simp only [idsDisjointB, List.all_eq_true, Bool.not_eq_true',
      collectIds] at hdisj ⊢
    intro k hk
    by_contra hcon
    simp only [Bool.not_eq_false] at hcon
    have hmem : k ∈ collectIds (.obj sj ss) := by
      simpa [collectIds] using hcon
    have hklt := hbelow k hmem
    simp only [List.mem_cons] at hk
    rcases hk with hk | hk
    · subst hk
      have := hdisj k (by simp [collectIds])
      rw [this] at hcon
      cases hcon
    · rcases hids k hk with h2 | h2
      · have := hdisj k (by simp [collectIds, h2])
        rw [this] at hcon
        cases hcon
      · omega

/-- C5 witness: a concrete application of `mergeSafe_never_overwrites`. -/
theorem mergeSafe_never_overwrites_witness :
    wfKeysB (.obj 0 (.cons "a" (.num 1) .nil)) = true
    ∧ wfKeysB (.obj 1 (.cons "a" (.num 2) (.cons "b" (.num 3) .nil))) = true
    ∧ hasCloneCapB (.obj 1 (.cons "a" (.num 2) (.cons "b" (.num 3) .nil)))
        = false
    ∧ idsBelowB (.obj 1 (.cons "a" (.num 2) (.cons "b" (.num 3) .nil))) 10
        = true
    ∧ idsDisjointB (.obj 0 (.cons "a" (.num 1) .nil))
        (.obj 1 (.cons "a" (.num 2) (.cons "b" (.num 3) .nil))) = true
    ∧ mergeSafe (.obj 0 (.cons "a" (.num 1) .nil))
        (.obj 1 (.cons "a" (.num 2) (.cons "b" (.num 3) .nil))) 10
      = .ok (.obj 0 (.cons "a" (.num 1) (.cons "b" (.num 3) .nil)), 10)
    ∧ preservedB (.obj 0 (.cons "a" (.num 1) .nil))
        (.obj 0 (.cons "a" (.num 1) (.cons "b" (.num 3) .nil))) = true
    ∧ idsDisjointB (.obj 0 (.cons "a" (.num 1) (.cons "b" (.num 3) .nil)))
        (.obj 1 (.cons "a" (.num 2) (.cons "b" (.num 3) .nil))) = true :=
  ⟨by decide, by decide, by decide, by decide, by decide, rfl,
   (mergeSafe_never_overwrites.1 0 (.cons "a" (.num 1) .nil) 1
     (.cons "a" (.num 2) (.cons "b" (.num 3) .nil)) 10
     (.obj 0 (.cons "a" (.num 1) (.cons "b" (.num 3) .nil))) 10
     (by decide) (by decide) (by decide) (by decide) (by decide) rfl).1,
   (mergeSafe_never_overwrites.1 0 (.cons "a" (.num 1) .nil) 1
     (.cons "a" (.num 2) (.cons "b" (.num 3) .nil)) 10
     (.obj 0 (.cons "a" (.num 1) (.cons "b" (.num 3) .nil))) 10
     (by decide) (by decide) (by decide) (by decide) (by decide) rfl).2⟩

/-! ### Claim C1: the diff/merge round-trip -/

theorem looseEqB_symm (a b : JVal) : looseEqB a b = looseEqB b a := by
  cases a <;> cases b <;> simp [looseEqB, eq_comm]

theorem allScalar_of_nonNull (cs : JSlots)
    (h : allNonNullScalarSlotsB cs = true) : allScalarSlotsB cs = true :=
  match cs with
  | .nil => rfl
  | .cons k v tl => by
      have h' := (by simpa [allNonNullScalarSlotsB] using h :
        nonNullScalarB v = true ∧ allNonNullScalarSlotsB tl = true)
      have hv : scalarValB v = true := by
        cases v <;> simp_all [nonNullScalarB, scalarValB]
      simp [allScalarSlotsB, hv, allScalar_of_nonNull tl h'.2]

theorem keysDisjointB_singleton (tl : JSlots) (p : String) (v : JVal)
    (h : hasKeyB tl p = false) :
    keysDisjointB tl (.cons p v .nil) = true :=
  match tl with
  | .nil => rfl
  | .cons k w t => by
      have hk : ¬(k = p) := by
        intro hc
        simp [hasKeyB, JSlots.lookup, hc] at h
      have ht : hasKeyB t p = false := by
        simpa [hasKeyB, JSlots.lookup, hk] using h
      have hpk : ¬(p = k) := fun hc => hk hc.symm
      simp [keysDisjointB, hasKeyB, JSlots.lookup, hpk,
        keysDisjointB_singleton t p v ht]

theorem cloneSlots_flat :
    ∀ (slots : JSlots) (id : Nat) (acc : JSlots) (n : Nat),
      allSimpleSlotsB slots = true →
      keysDisjointB slots acc = true →
      nodupKeysB slots = true →
      cloneSlots slots (.obj id acc) n = .ok (.obj id (acc.append slots), n)
  | .nil, id, acc, n => by
      intro _ _ _
      simp [cloneSlots, JSlots.appendNil]
  | .cons p v tl, id, acc, n => by
      intro hsc hdisj hnd
      have hsc' := (by simpa [allSimpleSlotsB] using hsc :
        isObjValB v = false ∧ allSimpleSlotsB tl = true)
      have hdisj' := (by simpa [keysDisjointB] using hdisj :
        hasKeyB acc p = false ∧ keysDisjointB tl acc = true)
      have hnd' := (by simpa [nodupKeysB] using hnd :
        hasKeyB tl p = false ∧ nodupKeysB tl = true)
      have hstep : cloneSlots (.cons p v tl) (.obj id acc) n
          = cloneSlots tl (.obj id (acc.set p v)) n := by
        cases v <;> first
          | rfl
          | simp [isObjValB] at hsc'
      rw [hstep,
        cloneSlots_flat tl id (acc.set p v) n hsc'.2
          (keysDisjointB_set tl acc p v hdisj'.2 hnd'.1) hnd'.2,
        JSlots.set_eq_append acc p v hdisj'.1, JSlots.appendAssoc]
      rfl

theorem resAfter_record (res : Option (Nat × JSlots)) (n : Nat) (p : String)
    (v : JVal) (d : JSlots)
    (hacc : ∀ i acc, res = some (i, acc) → hasKeyB acc p = false) :
    resAfter (record res n p v).1 (record res n p v).2 d
      = resAfter res n (.cons p v d) := by
  cases res with
  | none => simp [record, resAfter, JSlots.append]
  | some pr =>
      obtain ⟨i, acc⟩ := pr
      simp only [record, resAfter]
      rw [JSlots.set_eq_append acc p v (hacc i acc rfl), JSlots.appendAssoc]
      rfl

theorem changesSlots_flat :
    ∀ (cs : JSlots) (oi : Nat) (os : JSlots) (n : Nat)
      (res : Option (Nat × JSlots)),
      allScalarSlotsB cs = true →
      nodupKeysB cs = true →
      (∀ i acc, res = some (i, acc) → keysDisjointB cs acc = true) →
      changesSlots cs (.obj oi os) n res
        = .ok (resAfter res n (flatDiff cs os))
  | .nil, oi, os, n, res => by
      intro _ _ _
      cases res with
      | none => simp [changesSlots, flatDiff, resAfter]
      | some pr =>
          obtain ⟨i, acc⟩ := pr
          simp [changesSlots, flatDiff, resAfter, JSlots.appendNil]
  | .cons p v tl, oi, os, n, res => by
      intro hsc hnd hinv
      have hsc' := (by simpa [allScalarSlotsB] using hsc :
        scalarValB v = true ∧ allScalarSlotsB tl = true)
      have hnd' := (by simpa [nodupKeysB] using hnd :
        hasKeyB tl p = false ∧ nodupKeysB tl = true)
      have hg : getProp (.obj oi os) p = .ok ((os.lookup p).getD .undef) := rfl
      have hinvtl : ∀ i acc, res = some (i, acc) →
          keysDisjointB tl acc = true := by
        intro i acc hres
        exact (by simpa [keysDisjointB] using hinv i acc hres :
          hasKeyB acc p = false ∧ keysDisjointB tl acc = true).2
      have hinvrec : ∀ i acc, (record res n p v).1 = some (i, acc) →
          keysDisjointB tl acc = true := by
        cases res with
        | none =>
            intro i acc hres
            simp only [record, Option.some.injEq, Prod.mk.injEq] at hres
            rw [← hres.2]
            exact keysDisjointB_singleton tl p v hnd'.1
        | some pr =>
            obtain ⟨j, acc0⟩ := pr
            intro i acc hres
            simp only [record, Option.some.injEq, Prod.mk.injEq] at hres
            rw [← hres.2]
            have hacc := (by simpa [keysDisjointB] using hinv j acc0 rfl :
              hasKeyB acc0 p = false ∧ keysDisjointB tl acc0 = true)
            exact keysDisjointB_set tl acc0 p v hacc.2 hnd'.1
      have haccp : ∀ i acc, res = some (i, acc) →
          hasKeyB acc p = false := by
        intro i acc hres
        exact (by simpa [keysDisjointB] using hinv i acc hres :
          hasKeyB acc p = false ∧ keysDisjointB tl acc = true).1
      rw [changesSlots_cons_eq, hg]
      simp only [Bind.bind, Except.bind]
      by_cases h1 : looseEqB v ((os.lookup p).getD .undef) = true
      · rw [if_pos h1,
          changesSlots_flat tl oi os n res hsc'.2 hnd'.2 hinvtl]
        have hfd : flatDiff (.cons p v tl) os = flatDiff tl os := by
          simp [flatDiff, h1]
        rw [hfd]
      · rw [if_neg h1]
        by_cases h2 : falsyB v = true
        · rw [if_pos h2]
          by_cases h3 : falsyB ((os.lookup p).getD .undef) = true
          · rw [if_pos h3,
              changesSlots_flat tl oi os n res hsc'.2 hnd'.2 hinvtl]
            have hfd : flatDiff (.cons p v tl) os = flatDiff tl os := by
              simp only [Bool.not_eq_true] at h1
              simp [flatDiff, h1, h2, h3]
            rw [hfd]
          · rw [if_neg h3,
              changesSlots_flat tl oi os (record res n p v).2
                (record res n p v).1 hsc'.2 hnd'.2 hinvrec]
            have hfd : flatDiff (.cons p v tl) os
                = .cons p v (flatDiff tl os) := by
              simp only [Bool.not_eq_true] at h1 h3
              simp [flatDiff, h1, h3]
            rw [hfd, resAfter_record res n p v (flatDiff tl os) haccp]
        · rw [if_neg h2]
          have hov : isObjValB v = false := by
            cases v <;> simp_all [scalarValB, isObjValB]
          rw [if_neg (by simp [hov] : ¬(isObjValB v = true)),
            changesSlots_flat tl oi os (record res n p v).2
              (record res n p v).1 hsc'.2 hnd'.2 hinvrec]
          have hfd : flatDiff (.cons p v tl) os
              = .cons p v (flatDiff tl os) := by
            simp only [Bool.not_eq_true] at h1 h2
            simp [flatDiff, h1, h2]
          rw [hfd, resAfter_record res n p v (flatDiff tl os) haccp]

theorem mergeSlots_flat :
    ∀ (dd : JSlots) (i : Nat) (s : JSlots) (n : Nat),
      allPrimSlotsB dd = true →
      mergeSlots (.obj i s) dd n = .ok (.obj i (setAll s dd), n)
  | .nil, i, s, n => by
      intro _
      simp [mergeSlots, setAll]
  | .cons p v tl, i, s, n => by
      intro h
      have h' := (by simpa [allPrimSlotsB] using h :
        isPrimB v = true ∧ allPrimSlotsB tl = true)
      have hcond : (!isObjectTypeB v && !isFuncB v) = true := by
        simpa [isPrimB] using h'.1
      simp only [mergeSlots, hcond, if_true, setProp, Bind.bind, Except.bind]
      rw [mergeSlots_flat tl i (s.set p v) n h'.2]
      rfl

theorem flatDiff_hasKey_false (cs os : JSlots) (p : String)
    (h : hasKeyB cs p = false) : hasKeyB (flatDiff cs os) p = false :=
  match cs with
  | .nil => rfl
  | .cons k v tl => by
      have hk : ¬(k = p) := by
        intro hc
        simp [hasKeyB, JSlots.lookup, hc] at h
      have ht : hasKeyB tl p = false := by
        simpa [hasKeyB, JSlots.lookup, hk] using h
      have ih := flatDiff_hasKey_false tl os p ht
      rw [flatDiff]
      by_cases hc : (looseEqB v ((os.lookup k).getD .undef)
          || (falsyB v && falsyB ((os.lookup k).getD .undef))) = true
      · simpa [hc] using ih
      · simp only [Bool.not_eq_true] at hc
        simpa [hc, hasKeyB, JSlots.lookup, hk] using ih

theorem flatDiff_nodup (cs os : JSlots) (h : nodupKeysB cs = true) :
    nodupKeysB (flatDiff cs os) = true :=
  match cs with
  | .nil => rfl
  | .cons k v tl => by
      have h' := (by simpa [nodupKeysB] using h :
        hasKeyB tl k = false ∧ nodupKeysB tl = true)
      have ih := flatDiff_nodup tl os h'.2
      rw [flatDiff]
      by_cases hc : (looseEqB v ((os.lookup k).getD .undef)
          || (falsyB v && falsyB ((os.lookup k).getD .undef))) = true
      · simpa [hc] using ih
      · simp only [Bool.not_eq_true] at hc
        simp [hc, nodupKeysB, flatDiff_hasKey_false tl os k h'.1, ih]

theorem flatDiff_allPrim (cs os : JSlots)
    (h : allNonNullScalarSlotsB cs = true) :
    allPrimSlotsB (flatDiff cs os) = true :=
  match cs with
  | .nil => rfl
  | .cons k v tl => by
      have h' := (by simpa [allNonNullScalarSlotsB] using h :
        nonNullScalarB v = true ∧ allNonNullScalarSlotsB tl = true)
      have hv : isPrimB v = true := by
        cases v <;> simp_all [nonNullScalarB, isPrimB, isObjectTypeB, isFuncB]
      have ih := flatDiff_allPrim tl os h'.2
      rw [flatDiff]
      by_cases hc : (looseEqB v ((os.lookup k).getD .undef)
          || (falsyB v && falsyB ((os.lookup k).getD .undef))) = true
      · simpa [hc] using ih
      · simp only [Bool.not_eq_true] at hc
        simp [hc, allPrimSlotsB, hv, ih]

theorem flatDiff_lookup (cs os : JSlots) (p : String) (v : JVal)
    (hnd : nodupKeysB cs = true) (hlk : cs.lookup p = some v) :
    (flatDiff cs os).lookup p
      = (if (looseEqB v ((os.lookup p).getD .undef)
          || (falsyB v && falsyB ((os.lookup p).getD .undef))) = true
        then none else some v) :=
  match cs with
  | .nil => by simp [JSlots.lookup] at hlk
  | .cons k w tl => by
      have hnd' := (by simpa [nodupKeysB] using hnd :
        hasKeyB tl k = false ∧ nodupKeysB tl = true)
      by_cases hk : k = p
      · subst hk
        have hw : w = v := by simpa [JSlots.lookup] using hlk
        subst hw
        rw [flatDiff]
        by_cases hc : (looseEqB w ((os.lookup k).getD .undef)
            || (falsyB w && falsyB ((os.lookup k).getD .undef))) = true
        · rw [if_pos hc]
          simp only [hc, if_true]
          exact hasKeyB_false_lookup_none _ k
            (flatDiff_hasKey_false tl os k hnd'.1)
        · simp only [Bool.not_eq_true] at hc
          simp [hc, JSlots.lookup]
      · have hlk' : tl.lookup p = some v := by
          simpa [JSlots.lookup, hk] using hlk
        have ih := flatDiff_lookup tl os p v hnd'.2 hlk'
        rw [flatDiff]
        by_cases hc : (looseEqB w ((os.lookup k).getD .undef)
            || (falsyB w && falsyB ((os.lookup k).getD .undef))) = true
        · simpa [hc] using ih
        · simp only [Bool.not_eq_true] at hc
          simpa [hc, JSlots.lookup, hk] using ih

theorem setAll_lookup_notin :
    ∀ (dd s : JSlots) (p : String), dd.lookup p = none →
      (setAll s dd).lookup p = s.lookup p
  | .nil, s, p => fun _ => rfl
  | .cons k w tl, s, p => by
      intro h
      have hk : ¬(k = p) := by
        intro hc
        simp [JSlots.lookup, hc] at h
      have ht : tl.lookup p = none := by
        simpa [JSlots.lookup, hk] using h
      rw [setAll, setAll_lookup_notin tl (s.set k w) p ht,
        JSlots.lookup_set_ne s k p w hk]

theorem setAll_lookup_in :
    ∀ (dd s : JSlots) (p : String) (v : JVal), nodupKeysB dd = true →
      dd.lookup p = some v → (setAll s dd).lookup p = some v
  | .nil, s, p, v => by
      intro _ h
      simp [JSlots.lookup] at h
  | .cons k w tl, s, p, v => by
      intro hnd h
      have hnd' := (by simpa [nodupKeysB] using hnd :
        hasKeyB tl k = false ∧ nodupKeysB tl = true)
      by_cases hk : k = p
      · subst hk
        have hw : w = v := by simpa [JSlots.lookup] using h
        subst hw
        rw [setAll, setAll_lookup_notin tl (s.set k w) k
          (hasKeyB_false_lookup_none tl k hnd'.1),
          JSlots.lookup_set_self s k w]
      · have ht : tl.lookup p = some v := by
          simpa [JSlots.lookup, hk] using h
        rw [setAll]
        exact setAll_lookup_in tl (s.set k w) p v hnd'.2 ht

theorem roundtrip_of_pointwise :
    ∀ (part : JSlots) (c' : JVal),
      nodupKeysB part = true →
      (∀ p v, part.lookup p = some v →
        ∃ r, getProp c' p = .ok r
          ∧ (looseEqB r v || (falsyB r && falsyB v)) = true) →
      roundtripSlotsOkB c' part = true
  | .nil, c' => fun _ _ => rfl
  | .cons p v tl, c' => by
      intro hnd hpt
      have hnd' := (by simpa [nodupKeysB] using hnd :
        hasKeyB tl p = false ∧ nodupKeysB tl = true)
      obtain ⟨r, hr, hok⟩ := hpt p v (by simp [JSlots.lookup])
      have hpt' : ∀ q u, tl.lookup q = some u →
          ∃ r, getProp c' q = .ok r
            ∧ (looseEqB r u || (falsyB r && falsyB u)) = true := by
        intro q u hq
        refine hpt q u ?_
        have hpq : ¬(p = q) := by
          intro hc
          rw [← hc] at hq
          rw [hasKeyB_false_lookup_none tl p hnd'.1] at hq
          cases hq
        simp [JSlots.lookup, hpq, hq]
      rw [roundtripSlotsOkB, hr]
      simp only [hok, Bool.true_and]
      exact roundtrip_of_pointwise tl c' hnd'.2 hpt'

/-- C1 counterexample: the round-trip does not restore the candidate, even
for flat scalar aggregates.  With original = \x7ba: ""\x7d and candidate = \x7ba: 0\x7d,
changes reports nothing (0 == "" is loosely true), so the merged clone
keeps "" in slot a, which is not structurally equal to the candidate's 0. -/
theorem roundtrip_not_structural :
    clone (.obj 0 (.cons "a" (.str "") .nil)) (.obj 2 .nil) 3
      = .ok (.obj 2 (.cons "a" (.str "") .nil), 3)
    ∧ changes (.obj 1 (.cons "a" (.num 0) .nil))
        (.obj 0 (.cons "a" (.str "") .nil)) 3 = .ok (.null, 3)
    ∧ merge (.obj 2 (.cons "a" (.str "") .nil)) .null 3
      = .ok (.obj 2 (.cons "a" (.str "") .nil), 3)
    ∧ getProp (.obj 2 (.cons "a" (.str "") .nil)) "a" = .ok (.str "")
    ∧ structEqB (.str "") (.num 0) = false :=
  ⟨rfl, rfl, rfl, rfl, rfl⟩

/-- C1 amended: for flat aggregates — the candidate's slots all non-null
non-function scalars, the original's slots free of nested aggregates and
sequences — merging changes(candidate, original) into a fresh clone of
original leaves every slot of the candidate holding a value that is
loosely equal to, or both-falsy with, the candidate's value.  Exact
structural recovery fails (see `roundtrip_not_structural`), and nested
aggregates, arrays, null and function slot values break the round-trip in
further ways. -/
theorem roundtrip_flat_loose (oi : Nat) (os : JSlots) (ci : Nat)
    (cs : JSlots) (n₀ : Nat) (c0 d c' : JVal) (n₁ n₂ n₃ : Nat)
    (hos : allSimpleSlotsB os = true)
    (hosnd : nodupKeysB os = true)
    (hcs : allNonNullScalarSlotsB cs = true)
    (hcsnd : nodupKeysB cs = true)
    (h1 : clone (.obj oi os) (.obj n₀ .nil) (n₀ + 1) = .ok (c0, n₁))
    (h2 : changes (.obj ci cs) (.obj oi os) n₁ = .ok (d, n₂))
    (h3 : merge c0 d n₂ = .ok (c', n₃)) :
    roundtripSlotsOkB c' cs = true := by
  have hscs := allScalar_of_nonNull cs hcs
  have hcl : clone (.obj oi os) (.obj n₀ .nil) (n₀ + 1)
      = .ok (.obj n₀ os, n₀ + 1) := by
    have := cloneSlots_flat os n₀ .nil (n₀ + 1) hos (keysDisjointB_nil os)
      hosnd
    simpa [clone, JSlots.append] using this
  rw [hcl] at h1
  simp only [Except.ok.injEq, Prod.mk.injEq] at h1
  obtain ⟨hc0, hn1⟩ := h1
  subst hc0
  subst hn1
  have hch := changesSlots_flat cs oi os (n₀ + 1) none hscs hcsnd
    (fun i acc h => by cases h)
  have hmain : ∀ (cc : JVal),
      cc = .obj n₀ (setAll os (flatDiff cs os)) →
      roundtripSlotsOkB cc cs = true := by
    intro cc hcc
    subst hcc
    refine roundtrip_of_pointwise cs _ hcsnd ?_
    intro p v hlk
    have hfd := flatDiff_lookup cs os p v hcsnd hlk
    by_cases hcond : (looseEqB v ((os.lookup p).getD .undef)
        || (falsyB v && falsyB ((os.lookup p).getD .undef))) = true
    · rw [if_pos hcond] at hfd
      refine ⟨(os.lookup p).getD .undef, ?_, ?_⟩
      · simp [getProp, setAll_lookup_notin (flatDiff cs os) os p hfd]
      · simp only [Bool.or_eq_true, Bool.and_eq_true] at hcond ⊢
        rcases hcond with hc | hc
        · exact Or.inl (by rw [looseEqB_symm]; exact hc)
        · exact Or.inr ⟨hc.2, hc.1⟩
    · rw [if_neg hcond] at hfd
      refine ⟨v, ?_, ?_⟩
      · simp [getProp,
          setAll_lookup_in (flatDiff cs os) os p v
            (flatDiff_nodup cs os hcsnd) hfd]
      · simp [looseEqB_refl]
  cases hddm : flatDiff cs os with
  | nil =>
      have hc : changes (.obj ci cs) (.obj oi os) (n₀ + 1)
          = .ok (.null, n₀ + 1) := by
        rw [hddm] at hch
        simp [changes, hch, resAfter, Bind.bind, Except.bind]
      rw [hc] at h2
      simp only [Except.ok.injEq, Prod.mk.injEq] at h2
      obtain ⟨hd, hn2⟩ := h2
      subst hd
      subst hn2
      have hm : merge (.obj n₀ os) .null (n₀ + 1)
          = .ok (.obj n₀ os, n₀ + 1) := rfl
      rw [hm] at h3
      simp only [Except.ok.injEq, Prod.mk.injEq] at h3
      obtain ⟨hc', _⟩ := h3
      refine hmain c' ?_
      rw [← hc', hddm]
      rfl
  | cons dk dv dtl =>
      have hc : changes (.obj ci cs) (.obj oi os) (n₀ + 1)
          = .ok (.obj (n₀ + 1) (.cons dk dv dtl), n₀ + 2) := by
        rw [hddm] at hch
        simp [changes, hch, resAfter, Bind.bind, Except.bind]
      rw [hc] at h2
      simp only [Except.ok.injEq, Prod.mk.injEq] at h2
      obtain ⟨hd, hn2⟩ := h2
      subst hd
      subst hn2
      have hprim : allPrimSlotsB (JSlots.cons dk dv dtl) = true := by
        rw [← hddm]
        exact flatDiff_allPrim cs os hcs
      have hm : merge (.obj n₀ os) (.obj (n₀ + 1) (.cons dk dv dtl)) (n₀ + 2)
          = .ok (.obj n₀ (setAll os (.cons dk dv dtl)), n₀ + 2) := by
        have := mergeSlots_flat (.cons dk dv dtl) n₀ os (n₀ + 2) hprim
        simpa [merge] using this
      rw [hm] at h3
      simp only [Except.ok.injEq, Prod.mk.injEq] at h3
      obtain ⟨hc', _⟩ := h3
      refine hmain c' ?_
      rw [← hc', hddm]

/-- C1 witness: a concrete flat instance of `roundtrip_flat_loose`:
original = \x7ba: 1, b: "x"\x7d, candidate = \x7ba: 2, c: 0\x7d.  The slot a is
restored exactly; the slot c stays absent in the merged clone but 0 and
undefined are both falsy, as the amended claim allows. -/
theorem roundtrip_flat_loose_witness :
    allSimpleSlotsB (.cons "a" (.num 1) (.cons "b" (.str "x") .nil)) = true
    ∧ nodupKeysB (.cons "a" (.num 1) (.cons "b" (.str "x") .nil)) = true
    ∧ allNonNullScalarSlotsB (.cons "a" (.num 2) (.cons "c" (.num 0) .nil))
        = true
    ∧ nodupKeysB (.cons "a" (.num 2) (.cons "c" (.num 0) .nil)) = true
    ∧ clone (.obj 0 (.cons "a" (.num 1) (.cons "b" (.str "x") .nil)))
        (.obj 2 .nil) 3
      = .ok (.obj 2 (.cons "a" (.num 1) (.cons "b" (.str "x") .nil)), 3)
    ∧ changes (.obj 1 (.cons "a" (.num 2) (.cons "c" (.num 0) .nil)))
        (.obj 0 (.cons "a" (.num 1) (.cons "b" (.str "x") .nil))) 3
      = .ok (.obj 3 (.cons "a" (.num 2) .nil), 4)
    ∧ merge (.obj 2 (.cons "a" (.num 1) (.cons "b" (.str "x") .nil)))
        (.obj 3 (.cons "a" (.num 2) .nil)) 4
      = .ok (.obj 2 (.cons "a" (.num 2) (.cons "b" (.str "x") .nil)), 4)
    ∧ roundtripSlotsOkB
        (.obj 2 (.cons "a" (.num 2) (.cons "b" (.str "x") .nil)))
        (.cons "a" (.num 2) (.cons "c" (.num 0) .nil)) = true :=
  ⟨by decide, by decide, by decide, by decide, rfl, rfl, rfl,
   roundtrip_flat_loose 0 (.cons "a" (.num 1) (.cons "b" (.str "x") .nil))
     1 (.cons "a" (.num 2) (.cons "c" (.num 0) .nil)) 2
     (.obj 2 (.cons "a" (.num 1) (.cons "b" (.str "x") .nil)))
     (.obj 3 (.cons "a" (.num 2) .nil))
     (.obj 2 (.cons "a" (.num 2) (.cons "b" (.str "x") .nil)))
     3 4 4 (by decide) (by decide) (by decide) (by decide) rfl rfl rfl⟩

end Objecty
